import Mathlib

/-!
Verification of the retrieval subsystem of the obsidian-sidekick plugin.

The TypeScript sources are shallowly embedded as Lean definitions:

* JavaScript numbers taking part in square roots (embedding vectors, cosine
  similarity scores) are modelled as real numbers; JavaScript numbers on which
  the code only performs field arithmetic and comparisons (fusion scores,
  timestamps) are modelled as exact rationals / integers.
* Vault and store access is modelled by explicit lookup functions
  (`String → Option _`); a `none` read stands for a missing file or a
  rejected read promise, matching the `try`/`catch` structure of the code.
* The OpenAI embedding provider is a parameter `embed : String → List ℝ`
  (searching) or an `Except`-valued call (indexing), since its output is
  external input to the program.

Each claim theorem names the source function(s) it is about.
-/

set_option maxHeartbeats 1000000

/-- The inlined dot product `vecA.reduce((sum, a, i) => sum + a * vecB[i], 0)`
used by both cosine-similarity implementations; on the equal-dimension vectors
the code is called with, the indexwise sum is the zip product. -/
def dotProduct (a b : List ℝ) : ℝ :=
  (List.zipWith (fun x y => x * y) a b).sum

/-- `Math.sqrt(vec.reduce((sum, x) => sum + x * x, 0))`, the Euclidean
magnitude computed by both cosine-similarity implementations. -/
noncomputable def magnitude (a : List ℝ) : ℝ :=
  Real.sqrt (dotProduct a a)

@[simp] theorem dotProduct_nil_left (b : List ℝ) : dotProduct [] b = 0 := rfl

@[simp] theorem dotProduct_nil_right (a : List ℝ) : dotProduct a [] = 0 := by
  cases a <;> rfl

@[simp] theorem dotProduct_cons (x y : ℝ) (a b : List ℝ) :
    dotProduct (x :: a) (y :: b) = x * y + dotProduct a b := by
  simp [dotProduct]

theorem dotProduct_self_nonneg (a : List ℝ) : 0 ≤ dotProduct a a := by
  induction a with
  | nil => simp
  | cons x xs ih => simp only [dotProduct_cons]; nlinarith [ih, sq_nonneg x]

/-- Cauchy–Schwarz for the zip dot product, squared form. -/
theorem dotProduct_sq_le (a : List ℝ) : ∀ b : List ℝ,
    dotProduct a b ^ 2 ≤ dotProduct a a * dotProduct b b := by
  induction a with
  | nil =>
    intro b; simp
  | cons x xs ih =>
    intro b
    cases b with
    | nil =>
      simp
    | cons y ys =>
      have hA : 0 ≤ dotProduct xs xs := dotProduct_self_nonneg xs
      have hB : 0 ≤ dotProduct ys ys := dotProduct_self_nonneg ys
      have hD := ih ys
      simp only [dotProduct_cons]
      set A := dotProduct xs xs with hAdef
      set B := dotProduct ys ys with hBdef
      set D := dotProduct xs ys with hDdef
      rcases eq_or_lt_of_le hB with hB0 | hBpos
      · -- the tail of `b` is a zero vector: the cross term vanishes
        have hD2 : D ^ 2 = 0 := le_antisymm (by rw [← hB0] at hD; simpa using hD) (sq_nonneg D)
        have hD0 : D = 0 := by
          exact pow_eq_zero_iff (by norm_num : (2 : ℕ) ≠ 0) |>.mp hD2
        rw [hD0, ← hB0]
        nlinarith [sq_nonneg y, hA]
      · nlinarith [sq_nonneg (x * B - y * D), mul_nonneg hA hB, sq_nonneg (x * y - D)]

theorem abs_dotProduct_le (a b : List ℝ) :
    |dotProduct a b| ≤ magnitude a * magnitude b := by
  have h := dotProduct_sq_le a b
  have h1 : |dotProduct a b| = Real.sqrt (dotProduct a b ^ 2) :=
    (Real.sqrt_sq_eq_abs _).symm
  rw [h1, magnitude, magnitude, ← Real.sqrt_mul (dotProduct_self_nonneg a)]
  exact Real.sqrt_le_sqrt h

/-- The raw (unclamped) quotient `dot / (|a| * |b|)` already lies in `[-1, 1]`
(with the Lean convention `x / 0 = 0` covering degenerate magnitudes). -/
theorem rawCosine_bounds (a b : List ℝ) :
    -1 ≤ dotProduct a b / (magnitude a * magnitude b) ∧
      dotProduct a b / (magnitude a * magnitude b) ≤ 1 := by
  have hm : 0 ≤ magnitude a * magnitude b :=
    mul_nonneg (Real.sqrt_nonneg _) (Real.sqrt_nonneg _)
  rcases eq_or_lt_of_le hm with h0 | hpos
  · rw [← h0, div_zero]
    norm_num
  · have habs : |dotProduct a b / (magnitude a * magnitude b)| ≤ 1 := by
      rw [abs_div, abs_of_pos hpos]
      exact (div_le_one hpos).mpr (abs_dotProduct_le a b)
    exact abs_le.mp habs

theorem rawCosine_self (a : List ℝ) (ha : dotProduct a a ≠ 0) :
    dotProduct a a / (magnitude a * magnitude a) = 1 := by
  rw [magnitude, Real.mul_self_sqrt (dotProduct_self_nonneg a)]
  exact div_self ha

namespace SearchService

/-- `SearchService.cosineSimilarity` (src/services/SearchService.ts):
`dotProduct / (magnitudeA * magnitudeB)`, with no clamping. -/
noncomputable def cosineSimilarity (vecA vecB : List ℝ) : ℝ :=
  dotProduct vecA vecB / (magnitude vecA * magnitude vecB)

end SearchService

namespace SemanticSearch

/-- The standalone `cosineSimilarity` of the old search module
(src/unnamed/part_003): the same quotient, clamped by
`Math.min(Math.max(similarity, -1), 1)`. -/
noncomputable def cosineSimilarity (vecA vecB : List ℝ) : ℝ :=
  min (max (dotProduct vecA vecB / (magnitude vecA * magnitude vecB)) (-1)) 1

end SemanticSearch

section SortByDesc

variable {α : Type*} {K : Type*} [LinearOrder K]

/-- Stable insertion used to model `Array.prototype.sort` with comparator
`(a, b) => key(b) - key(a)` (descending, stable per ES2019). -/
def insertByDesc (key : α → K) (x : α) : List α → List α
  | [] => [x]
  | y :: ys => if key y ≤ key x then x :: y :: ys else y :: insertByDesc key x ys

/-- Stable descending sort by a key. -/
def sortByDesc (key : α → K) (l : List α) : List α :=
  l.foldr (insertByDesc key) []

theorem insertByDesc_perm (key : α → K) (x : α) (l : List α) :
    List.Perm (insertByDesc key x l) (x :: l) := by
  induction l with
  | nil => rfl
  | cons y ys ih =>
    by_cases h : key y ≤ key x
    · simp [insertByDesc, h]
    · simp only [insertByDesc, if_neg h]
      exact (ih.cons y).trans (List.Perm.swap x y ys)

theorem sortByDesc_perm (key : α → K) (l : List α) : List.Perm (sortByDesc key l) l := by
  induction l with
  | nil => rfl
  | cons x xs ih =>
    exact (insertByDesc_perm key x (sortByDesc key xs)).trans (ih.cons x)

theorem mem_sortByDesc {key : α → K} {l : List α} {a : α} :
    a ∈ sortByDesc key l ↔ a ∈ l :=
  (sortByDesc_perm key l).mem_iff

theorem length_sortByDesc (key : α → K) (l : List α) :
    (sortByDesc key l).length = l.length :=
  (sortByDesc_perm key l).length_eq

theorem insertByDesc_pairwise (key : α → K) (x : α) {l : List α}
    (h : l.Pairwise (fun a b => key b ≤ key a)) :
    (insertByDesc key x l).Pairwise (fun a b => key b ≤ key a) := by
  induction l with
  | nil => simp [insertByDesc]
  | cons y ys ih =>
    rcases List.pairwise_cons.mp h with ⟨hy, hys⟩
    by_cases hxy : key y ≤ key x
    · simp only [insertByDesc, if_pos hxy]
      refine List.pairwise_cons.mpr ⟨?_, h⟩
      intro z hz
      rcases List.mem_cons.mp hz with rfl | hz
      · exact hxy
      · exact le_trans (hy z hz) hxy
    · simp only [insertByDesc, if_neg hxy]
      refine List.pairwise_cons.mpr ⟨?_, ih hys⟩
      intro z hz
      have hz' := (insertByDesc_perm key x ys).mem_iff.mp hz
      rcases List.mem_cons.mp hz' with rfl | hz'
      · exact le_of_lt (lt_of_not_le hxy)
      · exact hy z hz'

theorem sortByDesc_pairwise (key : α → K) (l : List α) :
    (sortByDesc key l).Pairwise (fun a b => key b ≤ key a) := by
  induction l with
  | nil => simp [sortByDesc]
  | cons x xs ih => exact insertByDesc_pairwise key x ih

theorem take_sortByDesc_pairwise (key : α → K) (l : List α) (n : ℕ) :
    ((sortByDesc key l).take n).Pairwise (fun a b => key b ≤ key a) :=
  (sortByDesc_pairwise key l).sublist (List.take_sublist n _)

end SortByDesc

/-! ### String utilities shared by the search modules -/

/-- Test used to model the sentence-splitting regex class `[.!?]`. -/
def isSentenceEnd (c : Char) : Bool :=
  c = '.' || c = '!' || c = '?'

/-- Single pass behind `splitCollapse`; the flag records whether the previous
character was a separator, so that separator runs collapse as in a
`split(/[sep]+/)` JavaScript regex split. -/
def splitCollapseGo (p : Char → Bool) : List Char → List Char → Bool → List String
  | [], acc, _ => [String.mk acc.reverse]
  | c :: cs, acc, inSep =>
    if p c then
      if inSep then splitCollapseGo p cs acc true
      else String.mk acc.reverse :: splitCollapseGo p cs [] true
    else splitCollapseGo p cs (c :: acc) false

/-- `s.split(/[c]+/)` for a character class given by `p`: separator runs act
as one delimiter, while leading/trailing separators still produce the empty
fields JavaScript produces. -/
def splitCollapse (p : Char → Bool) (s : String) : List String :=
  splitCollapseGo p s.data [] false

/-- Whether `pat` is an initial segment of `l`. -/
def leadsWith : List Char → List Char → Bool
  | _, [] => true
  | [], _ :: _ => false
  | a :: as, b :: bs => a = b && leadsWith as bs

/-- Whether `pat` occurs as a contiguous segment of `l`. -/
def hasSubList (pat : List Char) : List Char → Bool
  | [] => leadsWith [] pat
  | c :: cs => leadsWith (c :: cs) pat || hasSubList pat cs

/-- `s.slice(0, n)` on JavaScript strings (character model). -/
def strTake (s : String) (n : ℕ) : String :=
  String.mk (s.data.take n)

/-- `s.trim()` (ASCII whitespace model). -/
def strTrim (s : String) : String :=
  String.mk (((s.data.dropWhile Char.isWhitespace).reverse.dropWhile
    Char.isWhitespace).reverse)

/-- `s.toLowerCase()` (characterwise model). -/
def strToLower (s : String) : String :=
  String.mk (s.data.map Char.toLower)

/-- `s.startsWith(pat)`. -/
def stringLeads (s pat : String) : Bool :=
  leadsWith s.data pat.data

/-- `s.includes(pat)` on JavaScript strings. -/
def containsSub (s pat : String) : Bool :=
  hasSubList pat.data s.data

/-! ### Host data model -/

/-- The slice of Obsidian's `TFile` the retrieval code reads: the vault path,
the extensionless base name, and the `stat` timestamps (milliseconds). -/
structure TFile where
  path : String
  basename : String
  ctime : ℤ
  mtime : ℤ
deriving DecidableEq, Repr

/-- The vault collaborator: `getMarkdownFiles()` and reading.  `read p = none`
models both a path that does not resolve to a `TFile` and a rejected
`vault.read` promise (the code treats either by skipping, via `instanceof`
checks and `try`/`catch`). -/
structure Vault where
  files : List TFile
  read : String → Option String

/-- `vault.getAbstractFileByPath` restricted to markdown `TFile`s. -/
def Vault.fileByPath (v : Vault) (p : String) : Option TFile :=
  v.files.find? (fun f => f.path == p)

/-- An `Embedding` record of storageService: `{ id, embedding, lastModified? }`. -/
structure Embedding where
  id : String
  embedding : List ℝ
  lastModified : Option ℤ := none

/-- Link metadata Obsidian's `MetadataCache` holds for one file: the targets
of its outgoing links (`fileCache.links[i].link`). -/
structure FileCache where
  links : List String

/-! ### Wiki-link extraction (`/\[\[(.*?)\]\]/g`) -/

/-- Scan for the first `]]`, failing on a newline (the regex dot does not
match newlines) or at the end of input; returns the captured run and the
remainder after the `]]`. -/
def scanLinkClose : List Char → Option (List Char × List Char)
  | [] => none
  | [_] => none
  | c :: c' :: cs =>
    if c = '\n' then none
    else if c = ']' ∧ c' = ']' then some ([], cs)
    else (scanLinkClose (c' :: cs)).map (fun r => (c :: r.1, r.2))

theorem scanLinkClose_length : ∀ (l inner rest : List Char),
    scanLinkClose l = some (inner, rest) → rest.length ≤ l.length := by
  intro l
  induction l with
  | nil => intro inner rest h; simp [scanLinkClose] at h
  | cons c cs ih =>
    intro inner rest h
    cases cs with
    | nil => simp [scanLinkClose] at h
    | cons c' cs' =>
      simp only [scanLinkClose] at h
      split_ifs at h with h1 h2
      · simp only [Option.some.injEq, Prod.mk.injEq] at h
        rcases h with ⟨-, rfl⟩
        simp only [List.length_cons]
        omega
      · rcases Option.map_eq_some'.mp h with ⟨⟨i', r'⟩, hsc, heq⟩
        simp only [Prod.mk.injEq] at heq
        rcases heq with ⟨-, rfl⟩
        have := ih i' r' hsc
        simp only [List.length_cons] at this ⊢
        omega

/-- Worker for `extractLinks`: find every `[[...]]` occurrence, capturing the
text up to the first `|` of each (aliased links).  The fuel argument (one
unit per character consumed) only makes the recursion structural, so that
the definition evaluates by reduction; `extractLinks` supplies enough. -/
def extractLinksGo : ℕ → List Char → List String
  | 0, _ => []
  | _, [] => []
  | fuel + 1, l =>
    match l with
    | [] => []
    | '[' :: '[' :: rest =>
      match scanLinkClose rest with
      | some (inner, after) =>
        String.mk (inner.takeWhile fun c => c != '|') :: extractLinksGo fuel after
      | none => extractLinksGo fuel rest
    | _ :: rest => extractLinksGo fuel rest

def extractLinks (content : String) : List String :=
  extractLinksGo content.data.length content.data

/-! ### Keyword machinery shared with `SearchService` -/

/-- The regex word class `\w = [A-Za-z0-9_]` used by the `\b` boundaries. -/
def isWordChar (c : Char) : Bool :=
  c.isAlphanum || c = '_'

/-- The character class kept by `replace(/[^a-zA-Z0-9\s]/g, '')` (ASCII model
of the JavaScript `\s` class). -/
def isSpaceChar (c : Char) : Bool :=
  c = ' ' || c = '\t' || c = '\n' || c = '\r' || c = '\x0b' || c = '\x0c'

/-- Whether `pat` matches at the head of `l` and is followed by a word
boundary (end of string or a non-word character). -/
def matchEndsAt (pat l : List Char) : Bool :=
  leadsWith l pat &&
    (match l.drop pat.length with
     | [] => true
     | c :: _ => !isWordChar c)

/-- Count the boundary-delimited occurrences of the (alphanumeric) keyword
`pat`, walking the text while tracking whether the previous character was a
word character (so `\b` holds at the match start). -/
def countWordGo (pat : List Char) : List Char → Bool → ℕ
  | [], _ => 0
  | c :: cs, prevWord =>
    (if !prevWord && matchEndsAt pat (c :: cs) then 1 else 0) +
      countWordGo pat cs (isWordChar c)

/-- `contentLower.match(new RegExp('\\b' + keyword + '\\b', 'gi')).length`
for an alphanumeric keyword. -/
def countWordMatches (pat : List Char) (l : List Char) : ℕ :=
  countWordGo pat l false

namespace SearchService

/-- The stop-word set of `SearchService.extractKeywords`. -/
def stopWords : List String :=
  ["the", "is", "at", "which", "on", "a", "an", "and", "or",
   "but", "in", "to", "for", "with", "by", "from", "up", "about",
   "into", "over", "after"]

/-- `SearchService.extractKeywords`: lowercase, strip everything but
alphanumerics and whitespace, split on whitespace runs, keep words longer
than two characters that are not stop words. -/
def extractKeywords (text : String) : List String :=
  let words :=
    (splitCollapse isSpaceChar
        (String.mk ((strToLower text).data.filter fun c => c.isAlphanum || isSpaceChar c))).filter
      (fun word => word.length > 2)
  words.filter (fun word => !stopWords.contains word)

/-- `SearchService.calculateKeywordScore`: total boundary-aware keyword hit
count, normalised by `content.length / 100`. -/
noncomputable def calculateKeywordScore (content : String) (keywords : List String) : ℝ :=
  let contentLower := strToLower content
  let score : ℝ :=
    ((keywords.map fun keyword =>
        countWordMatches (strToLower keyword).data contentLower.data).sum : ℕ)
  score / ((content.length : ℝ) / 100)

/-- `SearchService.extractRelevantSection`: `content.slice(0, 500)`. -/
def extractRelevantSection (content : String) : String :=
  strTake content 500

/-- `LinkedContext` of src/services/SearchService.ts. -/
structure LinkedContext where
  notePath : String
  relevance : ℝ
  context : String
  linkDistance : ℕ

/-- `SearchResult` of src/services/SearchService.ts.  Optional fields are
`Option`s defaulting to `none`; the optional `linkedContexts` array is a list
defaulting to `[]` (absent and empty are observationally equal here). -/
structure SearchResult where
  id : String
  score : ℝ
  content : String
  explicit : Option Bool := none
  fullContent : Option String := none
  linkedContexts : List LinkedContext := []
  keywordScore : Option ℝ := none
  linkScore : Option ℝ := none
  matchedKeywords : Option (List String) := none
  linkPath : Option (List String) := none

/-- `SearchService.performSemanticSearch`: score every stored embedding
against the query embedding, keep documents at or above the fixed `0.75`
threshold whose file resolves and reads, sort descending by score and keep
the first five.  The provider call `generateEmbedding(query, apiKey)` is the
parameter `embed`. -/
noncomputable def performSemanticSearch (embed : String → List ℝ)
    (embeddings : List Embedding) (vault : Vault) (query : String) :
    List SearchResult :=
  let queryEmbedding := embed query
  let results := embeddings.filterMap fun doc =>
    let score := cosineSimilarity queryEmbedding doc.embedding
    if (0.75 : ℝ) ≤ score then
      match (vault.fileByPath doc.id).bind (fun f => vault.read f.path) with
      | some content =>
        some { id := doc.id, score := score,
               content := extractRelevantSection content,
               fullContent := some content }
      | none => none
    else none
  (sortByDesc (fun r => r.score) results).take 5

/-- `SearchService.processLinkedFile`: read the linked file and build a
`LinkedContext` at `relevance = parentScore * 0.8` and `linkDistance = 1`;
a failed read yields `null`. -/
noncomputable def processLinkedFile (vault : Vault) (file : TFile)
    (parentScore : ℝ) : Option LinkedContext :=
  (vault.read file.path).map fun content =>
    { notePath := file.path, relevance := parentScore * 0.8,
      context := extractRelevantSection content, linkDistance := 1 }

/-- One visited-set step shared by the two loops of `traverseLinks`:
skip already-processed paths, otherwise mark the path processed and append
the produced context (if any). -/
noncomputable def traverseStep (vault : Vault) (parentScore : ℝ)
    (st : List String × List LinkedContext) (file : TFile) :
    List String × List LinkedContext :=
  if st.1.contains file.path then st
  else
    match processLinkedFile vault file parentScore with
    | some ctx => (file.path :: st.1, st.2 ++ [ctx])
    | none => (file.path :: st.1, st.2)

/-- `SearchService.traverseLinks`: forward links from the metadata cache,
then backlinks found by scanning every markdown file for a link whose target
is the file's path or basename; deduplicated through the shared visited set. -/
noncomputable def traverseLinks (vault : Vault) (cache : String → Option FileCache)
    (result : SearchResult) : List LinkedContext :=
  match vault.fileByPath result.id with
  | none => []
  | some file =>
    match cache file.path with
    | none => []
    | some fileCache =>
      let fwd := fileCache.links.foldl
        (fun st link =>
          match vault.fileByPath link with
          | some linkedFile => traverseStep vault result.score st linkedFile
          | none => st)
        ([], [])
      let final := vault.files.foldl
        (fun st potentialSource =>
          match cache potentialSource.path with
          | some sourceCache =>
            if sourceCache.links.any (fun l => l = file.path || l = file.basename) then
              traverseStep vault result.score st potentialSource
            else st
          | none => st)
        fwd
      final.2

/-- `SearchService.search`: semantic search, keyword annotation of each
result (when `fullContent` is truthy), linked-context attachment, and a final
descending re-sort by score. -/
noncomputable def search (embed : String → List ℝ) (embeddings : List Embedding)
    (vault : Vault) (cache : String → Option FileCache) (query : String) :
    List SearchResult :=
  let semanticResults := performSemanticSearch embed embeddings vault query
  let keywords := extractKeywords query
  let annotated := semanticResults.map fun result =>
    match result.fullContent with
    | some c =>
      if c = "" then result
      else
        { result with
          keywordScore := some (calculateKeywordScore c keywords),
          matchedKeywords := some (keywords.filter fun k =>
            containsSub (strToLower c) (strToLower k)) }
    | none => result
  let finalResults := annotated.map fun result =>
    let linkedContexts := traverseLinks vault cache result
    if linkedContexts.isEmpty then result
    else { result with linkedContexts := linkedContexts }
  sortByDesc (fun r => r.score) finalResults

end SearchService

namespace SemanticSearch

/-- `LinkedContext` of the old search module (src/unnamed/part_003) — note
that it has no `linkDistance` field. -/
structure LinkedContext where
  notePath : String
  relevance : ℝ
  context : String

/-- `SearchResult` of the old search module. -/
structure SearchResult where
  id : String
  score : ℝ
  content : String
  explicit : Option Bool := none
  fullContent : Option String := none
  linkedContexts : List LinkedContext := []

/-- Greedy sentence packing of `splitIntoChunks`: add the next sentence while
the concatenation stays within `chunkSize`, otherwise flush the trimmed
current chunk and restart from the sentence. -/
def packChunks (chunkSize : ℕ) : List String → String → List String
  | [], currentChunk =>
    if currentChunk = "" then [] else [strTrim currentChunk]
  | sentence :: rest, currentChunk =>
    if (currentChunk ++ sentence).length > chunkSize then
      if currentChunk = "" then packChunks chunkSize rest sentence
      else strTrim currentChunk :: packChunks chunkSize rest sentence
    else
      packChunks chunkSize rest
        (currentChunk ++ (if currentChunk = "" then "" else " ") ++ sentence)

/-- `splitIntoChunks(text, chunkSize)`: split on `[.!?]+` sentence
terminators and greedily pack sentences up to the size limit. -/
def splitIntoChunks (text : String) (chunkSize : ℕ) : List String :=
  packChunks chunkSize (splitCollapse isSentenceEnd text) ""

/-- `Math.max(...scores)` with `none` for the empty spread (`-Infinity`). -/
def listMax : List ℝ → Option ℝ
  | [] => none
  | x :: xs => some (xs.foldl max x)

/-- `scores.indexOf(value)` (first index holding the value). -/
noncomputable def idxOf (value : ℝ) (scores : List ℝ) : ℕ :=
  scores.findIdx (fun y => decide (y = value))

/-- `getLinkedNotes`: resolve every `[[...]]` target that is a markdown file. -/
def getLinkedNotes (content : String) (vault : Vault) : List TFile :=
  (extractLinks content).filterMap vault.fileByPath

/-- `getRelevantLinkedContext`: chunk the linked note, embed every chunk,
and if the best chunk similarity reaches the (default `0.75`) threshold,
return it as a `LinkedContext` whose `relevance` is that best chunk score. -/
noncomputable def getRelevantLinkedContext (queryEmbedding : List ℝ)
    (linkedFile : TFile) (vault : Vault) (embed : String → List ℝ)
    (similarityThreshold : ℝ := 0.75) : Option LinkedContext :=
  match vault.read linkedFile.path with
  | none => none
  | some content =>
    let chunks := splitIntoChunks content 500
    let chunkScores := chunks.map fun chunk =>
      cosineSimilarity queryEmbedding (embed chunk)
    match listMax chunkScores with
    | none => none
    | some bestScore =>
      if similarityThreshold ≤ bestScore then
        some { notePath := linkedFile.path, relevance := bestScore,
               context := chunks.getD (idxOf bestScore chunkScores) "" }
      else none

/-- `semanticSearch(query, apiKey, vault, topK = 3)`: threshold `0.80`
against every stored embedding; for survivors, pick the best-scoring
~500-character chunk as the snippet, attach the top three linked contexts
sorted by relevance, sort the documents descending by their whole-document
score and keep `topK`. -/
noncomputable def semanticSearch (embed : String → List ℝ)
    (embeddings : List Embedding) (vault : Vault) (query : String)
    (topK : ℕ := 3) : List SearchResult :=
  let queryEmbedding := embed query
  let results := embeddings.filterMap fun doc =>
    let score := cosineSimilarity queryEmbedding doc.embedding
    if (0.80 : ℝ) ≤ score then
      match (vault.fileByPath doc.id).bind (fun f => vault.read f.path) with
      | some content =>
        let chunks := splitIntoChunks content 500
        let chunkScores := chunks.map fun chunk =>
          cosineSimilarity queryEmbedding (embed chunk)
        let bestContent :=
          match listMax chunkScores with
          | some best => chunks.getD (idxOf best chunkScores) ""
          | none => ""
        let linkedContexts := (getLinkedNotes content vault).filterMap fun linkedFile =>
          getRelevantLinkedContext queryEmbedding linkedFile vault embed
        some { id := doc.id, score := score, content := bestContent,
               fullContent := some content,
               linkedContexts :=
                 (sortByDesc (fun lc => lc.relevance) linkedContexts).take 3 }
      | none => none
    else none
  (sortByDesc (fun r => r.score) results).take topK

end SemanticSearch

/-! ### JavaScript `Date` model

Timestamps are milliseconds since the Unix epoch (`ℤ`).  The host's local
time zone is modelled as UTC; the proleptic Gregorian conversions follow the
standard civil-calendar algorithms with floor division. -/

def msPerDay : ℤ := 86400000

def dayNumber (t : ℤ) : ℤ := Int.fdiv t msPerDay

def msOfDay (t : ℤ) : ℤ := Int.emod t msPerDay

/-- Day count since 1970-01-01 for a civil date (year, month 1–12, day). -/
def daysFromCivil (y m d : ℤ) : ℤ :=
  let y' := if m ≤ 2 then y - 1 else y
  let era := Int.fdiv y' 400
  let yoe := y' - era * 400
  let mp := if 2 < m then m - 3 else m + 9
  let doy := Int.fdiv (153 * mp + 2) 5 + d - 1
  let doe := yoe * 365 + Int.fdiv yoe 4 - Int.fdiv yoe 100 + doy
  era * 146097 + doe - 719468

/-- Civil date (year, month 1–12, day) of a day count since 1970-01-01. -/
def civilFromDays (z : ℤ) : ℤ × ℤ × ℤ :=
  let z' := z + 719468
  let era := Int.fdiv z' 146097
  let doe := z' - era * 146097
  let yoe := Int.fdiv
    (doe - Int.fdiv doe 1460 + Int.fdiv doe 36524 - Int.fdiv doe 146096) 365
  let y := yoe + era * 400
  let doy := doe - (365 * yoe + Int.fdiv yoe 4 - Int.fdiv yoe 100)
  let mp := Int.fdiv (5 * doy + 2) 153
  let d := doy - Int.fdiv (153 * mp + 2) 5 + 1
  let m := if mp < 10 then mp + 3 else mp - 9
  (if m ≤ 2 then y + 1 else y, m, d)

/-- `date.getDate()`: the day of the month. -/
def jsGetDate (t : ℤ) : ℤ := (civilFromDays (dayNumber t)).2.2

/-- `date.getMonth()`: the zero-based month. -/
def jsGetMonth (t : ℤ) : ℤ := (civilFromDays (dayNumber t)).2.1 - 1

/-- `date.getDay()`: the day of the week, `0` = Sunday. -/
def jsGetDay (t : ℤ) : ℤ := Int.emod (dayNumber t + 4) 7

/-- `date.setHours(h, mi, s, ms)`: replace the time of day. -/
def jsSetHours (h mi s ms t : ℤ) : ℤ :=
  dayNumber t * msPerDay + (h * 3600000 + mi * 60000 + s * 1000 + ms)

/-- `date.setDate(d)`: replace the day of the month, with JavaScript's
rollover into neighbouring months; the time of day is preserved. -/
def jsSetDate (d t : ℤ) : ℤ :=
  let c := civilFromDays (dayNumber t)
  (daysFromCivil c.1 c.2.1 1 + (d - 1)) * msPerDay + msOfDay t

/-- `date.setMonth(mo, d)` (zero-based month), with rollover in both
arguments; the time of day is preserved. -/
def jsSetMonth (mo d t : ℤ) : ℤ :=
  let c := civilFromDays (dayNumber t)
  let y := c.1 + Int.fdiv mo 12
  let m := Int.emod mo 12 + 1
  (daysFromCivil y m 1 + (d - 1)) * msPerDay + msOfDay t

/-- Point update of a keyed lookup store. -/
def storeSet {β : Type*} (store : String → Option β) (key : String) (v : β) :
    String → Option β :=
  fun k => if k = key then some v else store k

namespace DateIndex

/-- `DateMetadata` of src/services/DateIndex.ts. -/
structure DateMetadata where
  id : String
  createdAt : ℤ
  modifiedAt : ℤ
  contentDates : List ℤ
  lastIndexed : ℤ
deriving DecidableEq, Repr

/-- The `relative` keywords accepted by `DateFilter`. -/
inductive RelativeRange where
  | today
  | this_week
  | this_month
  | this_year
deriving DecidableEq, Repr

/-- `DateFilter` of src/services/DateIndex.ts; the source field `end` is
called `endDate` here because `end` is a Lean keyword. -/
structure DateFilter where
  start : Option ℤ := none
  endDate : Option ℤ := none
  relative : Option RelativeRange := none
deriving DecidableEq, Repr

/-- `DateIndex.isInDateRange`: any of the three timestamp kinds inside
`[startTime, endTime]`, inclusive on both ends. -/
def isInDateRange (metadata : DateMetadata) (startTime endTime : ℤ) : Bool :=
  (startTime ≤ metadata.createdAt && metadata.createdAt ≤ endTime) ||
  (startTime ≤ metadata.modifiedAt && metadata.modifiedAt ≤ endTime) ||
  metadata.contentDates.any (fun d => startTime ≤ d && d ≤ endTime)

/-- `DateIndex.getRelativeDateRange`, translated statement by statement from
the `switch`; `now` is the current timestamp (`new Date()`). -/
def getRelativeDateRange (relative : RelativeRange) (now : ℤ) : ℤ × ℤ :=
  match relative with
  | .today =>
    (jsSetHours 0 0 0 0 now, jsSetHours 23 59 59 999 now)
  | .this_week =>
    let start1 := jsSetDate (jsGetDate now - jsGetDay now) now
    let end1 := jsSetDate (jsGetDate start1 + 6) now
    (jsSetHours 0 0 0 0 start1, jsSetHours 23 59 59 999 end1)
  | .this_month =>
    let start1 := jsSetDate 1 now
    let end1 := jsSetMonth (jsGetMonth start1 + 1) 0 now
    (jsSetHours 0 0 0 0 start1, jsSetHours 23 59 59 999 end1)
  | .this_year =>
    let start1 := jsSetMonth 0 1 now
    let end1 := jsSetMonth 11 31 now
    (jsSetHours 0 0 0 0 start1, jsSetHours 23 59 59 999 end1)

/-- `DateIndex.filterByDate`: resolve the filter to `[startTime, endTime]`
(`filter.start?.getTime() || 0`, `filter.end?.getTime() || Date.now()`,
overridden by a relative keyword), then keep the files whose stored metadata
has a timestamp in range; files without a stored record are skipped. -/
def filterByDate (files : List TFile) (filter : DateFilter)
    (store : String → Option DateMetadata) (now : ℤ) : List TFile :=
  let startTime := match filter.start with
    | some t => if t = 0 then 0 else t
    | none => 0
  let endTime := match filter.endDate with
    | some t => if t = 0 then now else t
    | none => now
  let range := match filter.relative with
    | some rel => getRelativeDateRange rel now
    | none => (startTime, endTime)
  files.filter fun file =>
    match store file.path with
    | none => false
    | some metadata => isInDateRange metadata range.1 range.2

/-- The record `DateIndex.indexNote` would store for a file: stat timestamps
plus the content dates.  `extractDates` stands for
`extractDatesFromContent`, whose output depends on the host JavaScript
engine's `Date`-string parsing; no claim depends on its values.  A `none`
read is a rejected `vault.read` promise. -/
def indexNoteRecord (file : TFile) (read : String → Option String)
    (extractDates : String → List ℤ) (now : ℤ) : Option DateMetadata :=
  (read file.path).map fun content =>
    { id := file.path, createdAt := file.ctime, modifiedAt := file.mtime,
      contentDates := extractDates content, lastIndexed := now }

/-- `DateIndex.rebuildIndex`: clear the store, then index every markdown
file of the vault in order, skipping (and logging) per-file failures.  Note
that it receives the full file listing: no folder exclusion is applied. -/
def rebuildIndex (files : List TFile) (read : String → Option String)
    (extractDates : String → List ℤ) (now : ℤ) :
    String → Option DateMetadata :=
  files.foldl
    (fun store file =>
      match indexNoteRecord file read extractDates now with
      | some metadata => storeSet store file.path metadata
      | none => store)
    (fun _ => none)

/-- `DateIndex.needsIndexing`: never indexed, or modified after the last
indexing when both timestamps are normalised to seconds. -/
def needsIndexing (store : String → Option DateMetadata) (file : TFile) : Bool :=
  match store file.path with
  | none => true
  | some metadata =>
    Int.fdiv file.mtime 1000 > Int.fdiv metadata.lastIndexed 1000

end DateIndex

/-! ### Index maintenance (src/src/main.ts) -/

namespace Main

/-- `settings.excludedFolders.some(folder => file.path.startsWith(folder))`. -/
def isExcluded (excludedFolders : List String) (path : String) : Bool :=
  excludedFolders.any fun folder => stringLeads path folder

/-- `ObsidianChatSidebar.getFilesToProcess`: drop files under excluded
folders, then keep files with no embedding record or whose modification time
exceeds the record's `lastModified` after both are normalised to seconds
(`Math.floor(· / 1000)`); a missing `lastModified` counts as `0`. -/
def getFilesToProcess (excludedFolders : List String) (files : List TFile)
    (store : String → Option Embedding) : List TFile :=
  let filteredFiles := files.filter fun file =>
    !isExcluded excludedFolders file.path
  filteredFiles.filter fun file =>
    match store file.path with
    | none => true
    | some existing =>
      Int.fdiv file.mtime 1000 > Int.fdiv (existing.lastModified.getD 0) 1000

/-- `ObsidianChatSidebar.getFilesToProcessDates`: drop files under excluded
folders, then keep the files `DateIndex.needsIndexing` selects. -/
def getFilesToProcessDates (excludedFolders : List String) (files : List TFile)
    (store : String → Option DateIndex.DateMetadata) : List TFile :=
  (files.filter fun file => !isExcluded excludedFolders file.path).filter
    fun file => DateIndex.needsIndexing store file

/-- A raw failure of the OpenAI embeddings endpoint. -/
structure ProviderError where
  status : Option ℤ := none
  message : String := ""

/-- `generateEmbedding` of embeddingHelper.ts: an empty key throws
immediately; the input is truncated to 8000 characters; a `403` is
reclassified as an invalid-API-key error, a `429` as a rate-limit error, and
anything else is rethrown unchanged. -/
def generateEmbedding (provider : String → Except ProviderError (List ℝ))
    (text apiKey : String) : Except String (List ℝ) :=
  if apiKey = "" then .error "OpenAI API key is required"
  else
    match provider (strTake text 8000) with
    | .ok vec => .ok vec
    | .error e =>
      if e.status = some 403 then
        .error "Invalid OpenAI API key. Please check your settings."
      else if e.status = some 429 then
        .error "OpenAI rate limit exceeded. Please try again later."
      else .error e.message

/-- Outcome of the bulk loop of `startEmbeddingProcess`. -/
inductive BulkResult where
  | finished (store : String → Option Embedding) (notices : List String)
      (stoppedEarly : Bool)
  | uncaughtRead (store : String → Option Embedding) (path : String)
deriving Inhabited

/-- The embedding store held by a `BulkResult`. -/
def BulkResult.store : BulkResult → (String → Option Embedding)
  | .finished st _ _ => st
  | .uncaughtRead st _ => st

/-- The per-file loop of `ObsidianChatSidebar.startEmbeddingProcess`.
`vault.read` is awaited outside the `try` block, so a failed read rejects the
whole pass (`uncaughtRead`), with the store as updated so far and no
completion notice.  Inside the `try`, an error whose message contains
`'API key'` surfaces a notice with that message and breaks out of the loop;
any other error is logged and the loop continues with the next file.  The
user-driven pause/stop flags are not modelled (no user interaction here). -/
def bulkEmbedLoop (embedContent : String → Except String (List ℝ))
    (read : String → Option String) :
    List TFile → (String → Option Embedding) → BulkResult
  | [], store => .finished store [] false
  | file :: rest, store =>
    match read file.path with
    | none => .uncaughtRead store file.path
    | some content =>
      match embedContent content with
      | .ok vec =>
        bulkEmbedLoop embedContent read rest
          (storeSet store file.path
            { id := file.path, embedding := vec, lastModified := some file.mtime })
      | .error msg =>
        if containsSub msg "API key" then .finished store [msg] true
        else bulkEmbedLoop embedContent read rest store

end Main

/-! ### Date-aware fusion (src/src/services/DateAwareSearchService.ts)

This module performs only field arithmetic and comparisons on scores, so its
numbers are modelled as exact rationals.  The semantic result list is a
parameter (it is produced by the `SearchService` collaborator). -/

namespace DateAware

/-- The `matchType` variants of `dateRelevance`. -/
inductive MatchType where
  | creation
  | modification
  | content
deriving DecidableEq, Repr

/-- `dateRelevance` of `DateAwareSearchResult`. -/
structure DateRelevance where
  matchType : MatchType
  date : ℤ
deriving DecidableEq, Repr

/-- `DateAwareSearchResult` (the fields of `SearchResult` this service
touches, plus `dateRelevance`). -/
structure SearchResult where
  id : String
  score : ℚ
  content : String
  fullContent : Option String := none
  dateRelevance : Option DateRelevance := none
deriving DecidableEq, Repr

/-- `type` of a parsed `DateQuery`. -/
inductive QueryType where
  | absolute
  | relative
  | comparison
deriving DecidableEq, Repr

/-- The `DateQuery` intermediate representation. -/
structure DateQuery where
  type : QueryType
  filter : Option DateIndex.DateFilter := none
  comparisonPeriods : Option ((ℤ × ℤ) × (ℤ × ℤ)) := none
deriving DecidableEq, Repr

/-- The strict-JSON shape `analyzeDateQuery` expects back from the
classifier (dates already converted to timestamps). -/
structure DateAnalysis where
  hasDateAspect : Bool
  type : QueryType := .relative
  filter : Option DateIndex.DateFilter := none
  comparisonPeriods : Option ((ℤ × ℤ) × (ℤ × ℤ)) := none
deriving DecidableEq, Repr

/-- `DateAwareSearchService.analyzeDateQuery`: the classifier call and
`JSON.parse` both sit in one `try` whose `catch` returns `null`, so a failed
call (`response = .error`) or an unparseable reply (`parseJson _ = none`)
yields `none`; so does `hasDateAspect = false`.  Otherwise the analysis is
repackaged as a `DateQuery`. -/
def analyzeDateQuery (response : Except Unit String)
    (parseJson : String → Option DateAnalysis) : Option DateQuery :=
  match response with
  | .error _ => none
  | .ok content =>
    match parseJson content with
    | none => none
    | some analysis =>
      if !analysis.hasDateAspect then none
      else
        some { type := analysis.type, filter := analysis.filter,
               comparisonPeriods := analysis.comparisonPeriods }

/-- `DateAwareSearchService.addDateAwareResults`: for every matched file
with stored metadata, push a provisional result with `score = 1.0` and
`dateRelevance = { matchType: 'creation', date: metadata.createdAt }`. -/
def addDateAwareResults (files : List TFile)
    (store : String → Option DateIndex.DateMetadata)
    (read : String → Option String) : List SearchResult :=
  files.filterMap fun file =>
    match store file.path with
    | none => none
    | some metadata =>
      match read file.path with
      | none => none
      | some content =>
        some { id := file.path, score := 1, content := strTake content 500,
               fullContent := some content,
               dateRelevance := some { matchType := .creation,
                                       date := metadata.createdAt } }

/-- `mergedResults.set(id, r)` on the insertion-ordered JavaScript `Map`,
modelled as an id-keyed list: overwrite in place, or append. -/
def mapSet (m : List SearchResult) (r : SearchResult) : List SearchResult :=
  if m.any (fun x => x.id == r.id) then
    m.map fun x => if x.id == r.id then r else x
  else m ++ [r]

/-- `mergedResults.get(id)` / `has(id)`. -/
def mapFind (m : List SearchResult) (id : String) : Option SearchResult :=
  m.find? fun x => x.id == id

/-- The body of the second loop of `mergeAndRankResults`: boost an id
already present to `max(existing.score, result.score) * 1.2` and attach its
date relevance, otherwise insert the date result. -/
def mergeStep (m : List SearchResult) (result : SearchResult) :
    List SearchResult :=
  match mapFind m result.id with
  | some existing =>
    mapSet m { existing with
               score := max existing.score result.score * (1.2 : ℚ),
               dateRelevance := result.dateRelevance }
  | none => mapSet m result

/-- `DateAwareSearchService.mergeAndRankResults`: seed the map with the
semantic results; run `mergeStep` over the date results; return the values
sorted descending by score. -/
def mergeAndRankResults (semanticResults dateResults : List SearchResult) :
    List SearchResult :=
  let m0 := semanticResults.foldl (fun m result => mapSet m result) []
  let m1 := dateResults.foldl mergeStep m0
  sortByDesc (fun r => r.score) m1

/-- `DateAwareSearchService.getDateFilteredResults`: two `filterByDate`
passes whose results are concatenated for a comparison query, one pass
otherwise. -/
def getDateFilteredResults (dateQuery : DateQuery) (files : List TFile)
    (store : String → Option DateIndex.DateMetadata)
    (read : String → Option String) (now : ℤ) : List SearchResult :=
  if dateQuery.type = .comparison then
    match dateQuery.comparisonPeriods with
    | some (p1, p2) =>
      let period1Files := DateIndex.filterByDate files
        { start := some p1.1, endDate := some p1.2 } store now
      let period2Files := DateIndex.filterByDate files
        { start := some p2.1, endDate := some p2.2 } store now
      addDateAwareResults period1Files store read ++
        addDateAwareResults period2Files store read
    | none => []
  else
    match dateQuery.filter with
    | some filter =>
      addDateAwareResults (DateIndex.filterByDate files filter store now)
        store read
    | none => []

/-- `DateAwareSearchService.search`: analyse the query; with no date aspect
return the semantic results unchanged, otherwise merge them with the
date-filtered results. -/
def search (response : Except Unit String)
    (parseJson : String → Option DateAnalysis)
    (semanticResults : List SearchResult) (files : List TFile)
    (store : String → Option DateIndex.DateMetadata)
    (read : String → Option String) (now : ℤ) : List SearchResult :=
  match analyzeDateQuery response parseJson with
  | none => semanticResults
  | some dateQuery =>
    mergeAndRankResults semanticResults
      (getDateFilteredResults dateQuery files store read now)

end DateAware

theorem SearchService.cosineSimilarity_bounds_raw (a b : List ℝ) :
    -1 ≤ SearchService.cosineSimilarity a b ∧ SearchService.cosineSimilarity a b ≤ 1 :=
  rawCosine_bounds a b

theorem SemanticSearch.cosineSimilarity_bounds_clamped (a b : List ℝ) :
    -1 ≤ SemanticSearch.cosineSimilarity a b ∧ SemanticSearch.cosineSimilarity a b ≤ 1 := by
  unfold SemanticSearch.cosineSimilarity
  constructor
  · exact le_min (le_max_right _ _) (by norm_num)
  · exact min_le_right _ _

/-! ### Claim theorems -/

/-- C10: `DateIndex.filterByDate` returns only documents that already have a
stored `DateMetadata` record; a never-indexed document is silently excluded
even when its actual stat timestamps fall inside the requested range (second
conjunct: a file created/modified at `50`/`60` inside `[10, 100]`, with an
empty date store, is dropped). -/
theorem c10_filterByDate_requires_record :
    (∀ (files : List TFile) (filter : DateIndex.DateFilter)
        (store : String → Option DateIndex.DateMetadata) (now : ℤ),
      (DateIndex.filterByDate files filter store now).all
        (fun f => (store f.path).isSome) = true) ∧
    DateIndex.filterByDate [⟨"fresh.md", "fresh", 50, 60⟩]
      { start := some 10, endDate := some 100 } (fun _ => none) 1000 = [] := by
  constructor
  · intro files filter store now
    rw [List.all_eq_true]
    intro f hf
    simp only [DateIndex.filterByDate] at hf
    have hp := (List.mem_filter.mp hf).2
    cases hstore : store f.path with
    | none => rw [hstore] at hp; simp at hp
    | some metadata => simp [hstore]
  · decide

/-- C5 counterexample: the claim says the embedding staleness test compares
`doc.mtime > record.lastModified` at raw millisecond granularity, so a file
with `mtime = 1500` against a record with `lastModified = 1000` would be
re-embedded; `getFilesToProcess` (which normalises both to seconds) selects
nothing for it. -/
theorem c5_counterexample_ms_not_used :
    Main.getFilesToProcess [] [⟨"n.md", "n", 0, 1500⟩]
      (fun p => if p = "n.md"
        then some { id := "n.md", embedding := [], lastModified := some 1000 }
        else none) = [] ∧
    (1500 : ℤ) > 1000 := by
  constructor
  · rfl
  · decide

/-- C5 (amended): `getFilesToProcess` selects exactly the non-excluded files
with no embedding record or with `floor(mtime/1000) > floor(lastModified/1000)`
— the same second-normalised comparison `DateIndex.needsIndexing` uses — so
the embedding test is not stricter: on aligned record timestamps the two
tests decide identically. -/
theorem c5_staleness_second_granularity :
    (∀ (excludedFolders : List String) (files : List TFile)
        (store : String → Option Embedding) (f : TFile),
      f ∈ Main.getFilesToProcess excludedFolders files store ↔
        f ∈ files ∧ Main.isExcluded excludedFolders f.path = false ∧
          ∀ e, store f.path = some e →
            Int.fdiv (e.lastModified.getD 0) 1000 < Int.fdiv f.mtime 1000) ∧
    (∀ (dstore : String → Option DateIndex.DateMetadata) (f : TFile),
      DateIndex.needsIndexing dstore f = true ↔
        ∀ md, dstore f.path = some md →
          Int.fdiv md.lastIndexed 1000 < Int.fdiv f.mtime 1000) ∧
    (∀ (f : TFile) (estore : String → Option Embedding)
        (dstore : String → Option DateIndex.DateMetadata)
        (e : Embedding) (md : DateIndex.DateMetadata),
      estore f.path = some e → dstore f.path = some md →
        e.lastModified.getD 0 = md.lastIndexed →
        (f ∈ Main.getFilesToProcess [] [f] estore ↔
          DateIndex.needsIndexing dstore f = true)) := by
  have hmain : ∀ (excludedFolders : List String) (files : List TFile)
      (store : String → Option Embedding) (f : TFile),
      f ∈ Main.getFilesToProcess excludedFolders files store ↔
        f ∈ files ∧ Main.isExcluded excludedFolders f.path = false ∧
          ∀ e, store f.path = some e →
            Int.fdiv (e.lastModified.getD 0) 1000 < Int.fdiv f.mtime 1000 := by
    intro excludedFolders files store f
    simp only [Main.getFilesToProcess, List.mem_filter]
    constructor
    · rintro ⟨⟨hmem, hexcl⟩, hstale⟩
      refine ⟨hmem, by simpa using hexcl, ?_⟩
      intro e he
      rw [he] at hstale
      simpa using hstale
    · rintro ⟨hmem, hexcl, hstale⟩
      refine ⟨⟨hmem, by simp [hexcl]⟩, ?_⟩
      cases he : store f.path with
      | none => simp
      | some e => simpa using hstale e he
  have hdate : ∀ (dstore : String → Option DateIndex.DateMetadata) (f : TFile),
      DateIndex.needsIndexing dstore f = true ↔
        ∀ md, dstore f.path = some md →
          Int.fdiv md.lastIndexed 1000 < Int.fdiv f.mtime 1000 := by
    intro dstore f
    unfold DateIndex.needsIndexing
    cases hmd : dstore f.path with
    | none => simp
    | some md => simp
  refine ⟨hmain, hdate, ?_⟩
  intro f estore dstore e md he hmd halign
  constructor
  · intro hf
    rw [hdate]
    intro md' hmd'
    rw [hmd] at hmd'
    have h' := Option.some.inj hmd'
    subst h'
    have hc := ((hmain [] [f] estore f).mp hf).2.2 e he
    rw [halign] at hc
    exact hc
  · intro hneed
    rw [hmain]
    refine ⟨List.mem_singleton_self f, by simp [Main.isExcluded], ?_⟩
    intro e' he'
    rw [he] at he'
    have h' := Option.some.inj he'
    subst h'
    rw [halign]
    exact (hdate dstore f).mp hneed md hmd

/-- C4 (the `this_week` defect): at `now` = 2024-03-02T12:00 (a Saturday
whose week began on Sunday 2024-02-25, i.e. in the previous month),
`getRelativeDateRange` yields the range
`[2024-02-25T00:00:00.000, 2024-03-31T23:59:59.999]` — `end.setDate(start.getDate() + 6)`
applies the previous month's day-of-month `25 + 6 = 31` to March — which is
not the claimed calendar-aligned Sunday-to-Saturday week (its end is not
`start + 7 days − 1 ms`), and a document from 2024-03-15 consequently
passes the `this_week` filter although it lies outside the calendar week. -/
theorem c4_filterByDate_week_misaligned :
    DateIndex.getRelativeDateRange .this_week 1709380800000 =
      (1708819200000, 1711929599999) ∧
    (1711929599999 : ℤ) ≠ 1708819200000 + 7 * 86400000 - 1 ∧
    DateIndex.filterByDate [⟨"mid.md", "mid", 1710460800000, 1710460800000⟩]
      { relative := some .this_week }
      (fun p => if p = "mid.md"
        then some { id := "mid.md", createdAt := 1710460800000,
                    modifiedAt := 1710460800000, contentDates := [],
                    lastIndexed := 0 }
        else none)
      1709380800000 = [⟨"mid.md", "mid", 1710460800000, 1710460800000⟩] ∧
    ¬(1708819200000 ≤ (1710460800000 : ℤ) ∧
      (1710460800000 : ℤ) ≤ 1708819200000 + 7 * 86400000 - 1) := by
  refine ⟨by decide, by decide, by decide, by decide⟩

/-- C7: a failed classifier call (`response = .error`) or a classifier reply
that strict `JSON.parse` rejects (`parseJson content = none`) makes
`analyzeDateQuery` return `none`, and `DateAwareSearchService.search` then
returns the semantic results unchanged — the failure never escapes nor
blocks the search (the model's `search` is total and the `catch` maps every
failure to `none`).  The final conjunct exercises the path on a concrete
malformed reply. -/
theorem c7_classifier_fail_open :
    (∀ (parseJson : String → Option DateAware.DateAnalysis),
      DateAware.analyzeDateQuery (.error ()) parseJson = none) ∧
    (∀ (content : String) (parseJson : String → Option DateAware.DateAnalysis),
      parseJson content = none →
        DateAware.analyzeDateQuery (.ok content) parseJson = none) ∧
    (∀ (parseJson : String → Option DateAware.DateAnalysis)
        (semanticResults : List DateAware.SearchResult)
        (files : List TFile) (store : String → Option DateIndex.DateMetadata)
        (read : String → Option String) (now : ℤ),
      DateAware.search (.error ()) parseJson semanticResults files store read now
        = semanticResults) ∧
    (∀ (content : String) (parseJson : String → Option DateAware.DateAnalysis)
        (semanticResults : List DateAware.SearchResult)
        (files : List TFile) (store : String → Option DateIndex.DateMetadata)
        (read : String → Option String) (now : ℤ),
      parseJson content = none →
        DateAware.search (.ok content) parseJson semanticResults files store read now
          = semanticResults) ∧
    DateAware.search (.ok "not json") (fun _ => none)
      [{ id := "x.md", score := 1/2, content := "s" }] [] (fun _ => none)
      (fun _ => none) 0 = [{ id := "x.md", score := 1/2, content := "s" }] := by
  refine ⟨fun parseJson => rfl, ?_, fun _ _ _ _ _ _ => rfl, ?_, rfl⟩
  · intro content parseJson hparse
    simp [DateAware.analyzeDateQuery, hparse]
  · intro content parseJson semanticResults files store read now hparse
    simp [DateAware.search, DateAware.analyzeDateQuery, hparse]

theorem bulkEmbedLoop_untouched (embedContent : String → Except String (List ℝ))
    (read : String → Option String) :
    ∀ (files : List TFile) (store : String → Option Embedding) (p : String),
      (∀ g ∈ files, g.path ≠ p) →
      (Main.bulkEmbedLoop embedContent read files store).store p = store p := by
  intro files
  induction files with
  | nil => intro store p _; rfl
  | cons f fs ih =>
    intro store p hnot
    have hf : f.path ≠ p := hnot f (List.mem_cons_self f fs)
    have hfs : ∀ g ∈ fs, g.path ≠ p := fun g hg => hnot g (List.mem_cons_of_mem f hg)
    cases hread : read f.path with
    | none => simp [Main.bulkEmbedLoop, hread, Main.BulkResult.store]
    | some content =>
      cases hemb : embedContent content with
      | ok vec =>
        simp only [Main.bulkEmbedLoop, hread, hemb]
        rw [ih _ p hfs]
        simp [storeSet, if_neg (Ne.symm hf)]
      | error msg =>
        by_cases hauth : containsSub msg "API key" = true
        · simp [Main.bulkEmbedLoop, hread, hemb, hauth, Main.BulkResult.store]
        · simp only [Bool.not_eq_true] at hauth
          simp only [Main.bulkEmbedLoop, hread, hemb, hauth]
          simp only [Bool.false_eq_true, if_false]
          exact ih _ p hfs

theorem rebuildIndex_lookup_aux (read : String → Option String)
    (extractDates : String → List ℤ) (now : ℤ) :
    ∀ (files : List TFile) (init : String → Option DateIndex.DateMetadata)
      (p : String),
      (init p ≠ none ∨ ∃ f ∈ files, f.path = p ∧ read f.path ≠ none) →
      files.foldl
        (fun store file =>
          match DateIndex.indexNoteRecord file read extractDates now with
          | some metadata => storeSet store file.path metadata
          | none => store) init p ≠ none := by
  intro files
  induction files with
  | nil =>
    intro init p h
    rcases h with h | ⟨f, hf, -⟩
    · simpa using h
    · simp at hf
  | cons f fs ih =>
    intro init p h
    rw [List.foldl_cons]
    apply ih
    rcases h with h | ⟨g, hg, hp, hread⟩
    · left
      cases hrec : DateIndex.indexNoteRecord f read extractDates now with
      | none => simpa using h
      | some metadata =>
        simp only [storeSet]
        split_ifs with hpf
        · simp
        · simpa using h
    · rcases List.mem_cons.mp hg with rfl | hg'
      · left
        subst hp
        cases hrd : read g.path with
        | none => exact absurd hrd hread
        | some content =>
          simp [DateIndex.indexNoteRecord, hrd, storeSet]
      · right
        exact ⟨g, hg', hp, hread⟩

/-- C9 (amended): the bulk-embedding and incremental candidate selection
(`getFilesToProcess`, `getFilesToProcessDates`) never select a document under
an excluded folder, and the bulk loop therefore leaves every excluded
document's embedding record untouched; but `DateIndex.rebuildIndex` receives
the full vault listing and applies no folder exclusion, so it creates a
`DateMetadata` record for every readable document, excluded or not. -/
theorem c9_exclusion_partial :
    (∀ (excludedFolders : List String) (files : List TFile)
        (store : String → Option Embedding) (f : TFile),
      f ∈ Main.getFilesToProcess excludedFolders files store →
        Main.isExcluded excludedFolders f.path = false) ∧
    (∀ (excludedFolders : List String) (files : List TFile)
        (dstore : String → Option DateIndex.DateMetadata) (f : TFile),
      f ∈ Main.getFilesToProcessDates excludedFolders files dstore →
        Main.isExcluded excludedFolders f.path = false) ∧
    (∀ (excludedFolders : List String) (files : List TFile)
        (store : String → Option Embedding)
        (embedContent : String → Except String (List ℝ))
        (read : String → Option String) (p : String),
      Main.isExcluded excludedFolders p = true →
        (Main.bulkEmbedLoop embedContent read
            (Main.getFilesToProcess excludedFolders files store) store).store p
          = store p) ∧
    (∀ (files : List TFile) (read : String → Option String)
        (extractDates : String → List ℤ) (now : ℤ) (f : TFile),
      f ∈ files → read f.path ≠ none →
        DateIndex.rebuildIndex files read extractDates now f.path ≠ none) := by
  have h1 : ∀ (excludedFolders : List String) (files : List TFile)
      (store : String → Option Embedding) (f : TFile),
      f ∈ Main.getFilesToProcess excludedFolders files store →
        Main.isExcluded excludedFolders f.path = false := by
    intro excludedFolders files store f hf
    simp only [Main.getFilesToProcess, List.mem_filter] at hf
    have := hf.1.2
    simpa using this
  refine ⟨h1, ?_, ?_, ?_⟩
  · intro excludedFolders files dstore f hf
    simp only [Main.getFilesToProcessDates, List.mem_filter] at hf
    have := hf.1.2
    simpa using this
  · intro excludedFolders files store embedContent read p hp
    apply bulkEmbedLoop_untouched
    intro g hg hgp
    have hgex := h1 excludedFolders files store g hg
    rw [hgp, hp] at hgex
    exact Bool.true_eq_false ▸ hgex
  · intro files read extractDates now f hf hread
    exact rebuildIndex_lookup_aux read extractDates now files (fun _ => none)
      f.path (Or.inr ⟨f, hf, rfl, hread⟩)

/-- C9 counterexample: rebuilding the date index with `"secret"` among the
excluded folders still creates a `DateMetadata` record for
`"secret/a.md"` — the claim that no indexing operation ever creates a record
for an excluded document is false of `rebuildIndex`. -/
theorem c9_counterexample_rebuild_ignores_exclusions :
    DateIndex.rebuildIndex [⟨"secret/a.md", "a", 5, 10⟩] (fun _ => some "")
        (fun _ => []) 100 "secret/a.md" =
      some { id := "secret/a.md", createdAt := 5, modifiedAt := 10,
             contentDates := [], lastIndexed := 100 } ∧
    Main.isExcluded ["secret"] "secret/a.md" = true := by
  exact ⟨rfl, by decide⟩

/-- C2: both cosine-similarity implementations return values in `[-1, 1]`
for all vector pairs, self-similarity is exactly `1` for any vector of
nonzero magnitude, the standalone implementation is by definition the
quotient `dot/(|a|*|b|)` clamped to `[-1, 1]`, and the unclamped
`SearchService` implementation already satisfies the clamped form (clamping
it is the identity).  Closed conjuncts evaluate both at `a = b = [1]`. -/
theorem c2_cosineSimilarity_bounds_self :
    (∀ a b : List ℝ,
      (-1 ≤ SearchService.cosineSimilarity a b ∧
        SearchService.cosineSimilarity a b ≤ 1) ∧
      (-1 ≤ SemanticSearch.cosineSimilarity a b ∧
        SemanticSearch.cosineSimilarity a b ≤ 1) ∧
      SearchService.cosineSimilarity a b =
        dotProduct a b / (magnitude a * magnitude b) ∧
      SemanticSearch.cosineSimilarity a b =
        min (max (dotProduct a b / (magnitude a * magnitude b)) (-1)) 1 ∧
      SemanticSearch.cosineSimilarity a b =
        min (max (SearchService.cosineSimilarity a b) (-1)) 1 ∧
      (dotProduct a a ≠ 0 →
        SearchService.cosineSimilarity a a = 1 ∧
          SemanticSearch.cosineSimilarity a a = 1)) ∧
    SearchService.cosineSimilarity [1] [1] = 1 ∧
    SemanticSearch.cosineSimilarity [1] [1] = 1 := by
  have hone : dotProduct [(1 : ℝ)] [1] = 1 := by simp [dotProduct]
  refine ⟨?_, ?_, ?_⟩
  · intro a b
    refine ⟨rawCosine_bounds a b, SemanticSearch.cosineSimilarity_bounds_clamped a b,
      rfl, rfl, rfl, ?_⟩
    intro ha
    have hself := rawCosine_self a ha
    refine ⟨hself, ?_⟩
    unfold SemanticSearch.cosineSimilarity
    rw [hself]
    norm_num
  · unfold SearchService.cosineSimilarity magnitude
    rw [hone, Real.sqrt_one]
    norm_num
  · unfold SemanticSearch.cosineSimilarity magnitude
    rw [hone, Real.sqrt_one]
    norm_num

theorem bulkEmbedLoop_append (embedContent : String → Except String (List ℝ))
    (read : String → Option String) :
    ∀ (files1 rest : List TFile) (store st' : String → Option Embedding),
      Main.bulkEmbedLoop embedContent read files1 store =
        .finished st' [] false →
      Main.bulkEmbedLoop embedContent read (files1 ++ rest) store =
        Main.bulkEmbedLoop embedContent read rest st' := by
  intro files1
  induction files1 with
  | nil =>
    intro rest store st' hrun
    simp only [Main.bulkEmbedLoop] at hrun
    cases hrun
    rfl
  | cons f fs ih =>
    intro rest store st' hrun
    cases hread : read f.path with
    | none =>
      rw [show Main.bulkEmbedLoop embedContent read (f :: fs) store =
          .uncaughtRead store f.path by simp [Main.bulkEmbedLoop, hread]] at hrun
      exact absurd hrun (by simp)
    | some content =>
      cases hemb : embedContent content with
      | ok vec =>
        simp only [Main.bulkEmbedLoop, hread, hemb] at hrun
        simp only [List.cons_append, Main.bulkEmbedLoop, hread, hemb]
        exact ih rest _ st' hrun
      | error msg =>
        by_cases hauth : containsSub msg "API key" = true
        · rw [show Main.bulkEmbedLoop embedContent read (f :: fs) store =
              .finished store [msg] true by
            simp [Main.bulkEmbedLoop, hread, hemb, hauth]] at hrun
          simp at hrun
        · simp only [Bool.not_eq_true] at hauth
          simp only [Main.bulkEmbedLoop, hread, hemb, hauth, Bool.false_eq_true,
            if_false] at hrun
          simp only [List.cons_append, Main.bulkEmbedLoop, hread, hemb, hauth,
            Bool.false_eq_true, if_false]
          exact ih rest store st' hrun

/-- C8 (amended): `generateEmbedding` turns an HTTP 403 into an error whose
message contains `'API key'`; inside the bulk loop such an error surfaces
that message as a notice and aborts the remaining batch with every later
document's record untouched; an embed failure whose message does not mention
`'API key'` is skipped and the loop continues; but a *file read* failure is
awaited outside the `try` block and rejects the whole pass uncaught instead
of being logged and skipped. -/
theorem c8_batch_error_policy :
    (∀ (provider : String → Except Main.ProviderError (List ℝ))
        (text apiKey msg0 : String),
      apiKey ≠ "" →
      provider (strTake text 8000) = .error { status := some 403, message := msg0 } →
      Main.generateEmbedding provider text apiKey =
          .error "Invalid OpenAI API key. Please check your settings." ∧
        containsSub "Invalid OpenAI API key. Please check your settings."
          "API key" = true) ∧
    (∀ (embedContent : String → Except String (List ℝ))
        (read : String → Option String) (files1 : List TFile) (f : TFile)
        (files2 : List TFile) (store st' : String → Option Embedding)
        (c msg : String),
      Main.bulkEmbedLoop embedContent read files1 store = .finished st' [] false →
      read f.path = some c → embedContent c = .error msg →
      containsSub msg "API key" = true →
      Main.bulkEmbedLoop embedContent read (files1 ++ f :: files2) store =
        .finished st' [msg] true) ∧
    (∀ (embedContent : String → Except String (List ℝ))
        (read : String → Option String) (files : List TFile)
        (store st' : String → Option Embedding) (n : List String) (b : Bool)
        (p : String),
      Main.bulkEmbedLoop embedContent read files store = .finished st' n b →
      (∀ g ∈ files, g.path ≠ p) → st' p = store p) ∧
    (∀ (embedContent : String → Except String (List ℝ))
        (read : String → Option String) (f : TFile) (files : List TFile)
        (store : String → Option Embedding) (c msg : String),
      read f.path = some c → embedContent c = .error msg →
      containsSub msg "API key" = false →
      Main.bulkEmbedLoop embedContent read (f :: files) store =
        Main.bulkEmbedLoop embedContent read files store) ∧
    (∀ (embedContent : String → Except String (List ℝ))
        (read : String → Option String) (f : TFile) (files : List TFile)
        (store : String → Option Embedding),
      read f.path = none →
      Main.bulkEmbedLoop embedContent read (f :: files) store =
        .uncaughtRead store f.path) := by
  refine ⟨?_, ?_, ?_, ?_, ?_⟩
  · intro provider text apiKey msg0 hkey hprov
    refine ⟨?_, by decide⟩
    simp [Main.generateEmbedding, if_neg hkey, hprov]
  · intro embedContent read files1 f files2 store st' c msg hrun hread hemb hauth
    rw [bulkEmbedLoop_append embedContent read files1 (f :: files2) store st' hrun]
    simp [Main.bulkEmbedLoop, hread, hemb, hauth]
  · intro embedContent read files store st' n b p hrun hnot
    have := bulkEmbedLoop_untouched embedContent read files store p hnot
    rw [hrun] at this
    exact this
  · intro embedContent read f files store c msg hread hemb hauth
    simp [Main.bulkEmbedLoop, hread, hemb, hauth]
  · intro embedContent read f files store hread
    simp [Main.bulkEmbedLoop, hread]

/-- C8 counterexample: a rejected `vault.read` on the first document makes
the bulk pass abort uncaught (the claim says a read error is logged, the
document skipped and processing continues): the second document — which
would embed fine, as the singleton run shows — is left unprocessed. -/
theorem c8_counterexample_read_error_aborts :
    Main.bulkEmbedLoop (fun _ => .ok [])
        (fun p => if p = "f1.md" then none else some "ok")
        [⟨"f1.md", "f1", 0, 1⟩, ⟨"f2.md", "f2", 0, 2⟩] (fun _ => none) =
      .uncaughtRead (fun _ => none) "f1.md" ∧
    (Main.bulkEmbedLoop (fun _ => .ok [])
        (fun p => if p = "f1.md" then none else some "ok")
        [⟨"f2.md", "f2", 0, 2⟩] (fun _ => none)).store "f2.md" =
      some { id := "f2.md", embedding := [], lastModified := some 2 } := by
  constructor
  · rfl
  · rfl

theorem dotProduct_ten_zero : dotProduct [(10 : ℝ), 0] [10, 0] = 100 := by
  simp [dotProduct_cons]; norm_num

theorem magnitude_ten_zero : magnitude [(10 : ℝ), 0] = 10 := by
  rw [magnitude, dotProduct_ten_zero, show (100 : ℝ) = 10 ^ 2 by norm_num,
    Real.sqrt_sq (by norm_num : (0 : ℝ) ≤ 10)]

theorem magnitude_seven_sqrt : magnitude [(7 : ℝ), Real.sqrt 51] = 10 := by
  have h : dotProduct [(7 : ℝ), Real.sqrt 51] [7, Real.sqrt 51] = 100 := by
    simp only [dotProduct_cons, dotProduct_nil_left]
    rw [Real.mul_self_sqrt (by norm_num : (0 : ℝ) ≤ 51)]
    norm_num
  rw [magnitude, h, show (100 : ℝ) = 10 ^ 2 by norm_num,
    Real.sqrt_sq (by norm_num : (0 : ℝ) ≤ 10)]

theorem magnitude_eight_six : magnitude [(8 : ℝ), 6] = 10 := by
  have h : dotProduct [(8 : ℝ), 6] [8, 6] = 100 := by
    simp [dotProduct_cons]; norm_num
  rw [magnitude, h, show (100 : ℝ) = 10 ^ 2 by norm_num,
    Real.sqrt_sq (by norm_num : (0 : ℝ) ≤ 10)]

theorem cos_q_a : SearchService.cosineSimilarity [(10 : ℝ), 0] [7, Real.sqrt 51] = 0.7 := by
  rw [SearchService.cosineSimilarity, magnitude_ten_zero, magnitude_seven_sqrt]
  have h : dotProduct [(10 : ℝ), 0] [7, Real.sqrt 51] = 70 := by
    simp [dotProduct_cons]; norm_num
  rw [h]; norm_num

theorem cos_q_b : SemanticSearch.cosineSimilarity [(10 : ℝ), 0] [8, 6] = 0.8 := by
  rw [SemanticSearch.cosineSimilarity, magnitude_ten_zero, magnitude_eight_six]
  have h : dotProduct [(10 : ℝ), 0] [8, 6] = 80 := by
    simp [dotProduct_cons]; norm_num
  rw [h]
  norm_num

theorem cos_q_q : SemanticSearch.cosineSimilarity [(10 : ℝ), 0] [10, 0] = 1 := by
  rw [SemanticSearch.cosineSimilarity, magnitude_ten_zero, dotProduct_ten_zero]
  norm_num

theorem idxOf_head (x : ℝ) (rest : List ℝ) :
    SemanticSearch.idxOf x (x :: rest) = 0 := by
  unfold SemanticSearch.idxOf
  rw [List.findIdx_cons, decide_eq_true rfl]
  rfl

theorem performSemanticSearch_mem {embed : String → List ℝ}
    {embeddings : List Embedding} {vault : Vault} {query : String}
    {r : SearchService.SearchResult}
    (h : r ∈ SearchService.performSemanticSearch embed embeddings vault query) :
    ∃ doc ∈ embeddings, r.id = doc.id ∧
      r.score = SearchService.cosineSimilarity (embed query) doc.embedding ∧
      (0.75 : ℝ) ≤ r.score := by
  simp only [SearchService.performSemanticSearch] at h
  have h2 := mem_sortByDesc.mp (List.mem_of_mem_take h)
  obtain ⟨doc, hdoc, hf⟩ := List.mem_filterMap.mp h2
  split_ifs at hf with hth
  split at hf
  · rename_i content hcontent
    have hr := Option.some.inj hf
    subst hr
    exact ⟨doc, hdoc, rfl, rfl, hth⟩
  · simp at hf

theorem semanticSearch_mem {embed : String → List ℝ}
    {embeddings : List Embedding} {vault : Vault} {query : String} {topK : ℕ}
    {r : SemanticSearch.SearchResult}
    (h : r ∈ SemanticSearch.semanticSearch embed embeddings vault query topK) :
    ∃ doc ∈ embeddings, r.id = doc.id ∧
      r.score = SemanticSearch.cosineSimilarity (embed query) doc.embedding ∧
      (0.80 : ℝ) ≤ r.score := by
  simp only [SemanticSearch.semanticSearch] at h
  have h2 := mem_sortByDesc.mp (List.mem_of_mem_take h)
  obtain ⟨doc, hdoc, hf⟩ := List.mem_filterMap.mp h2
  split_ifs at hf with hth
  split at hf
  · rename_i content hcontent
    have hr := Option.some.inj hf
    subst hr
    exact ⟨doc, hdoc, rfl, rfl, hth⟩
  · simp at hf

theorem performSemanticSearch_eval_excluded :
    SearchService.performSemanticSearch (fun _ => [10, 0])
      [{ id := "a.md", embedding := [7, Real.sqrt 51] }]
      { files := [⟨"a.md", "a", 0, 0⟩],
        read := fun p => if p = "a.md" then some "x" else none } "q" = [] := by
  simp only [SearchService.performSemanticSearch, List.filterMap_cons,
    List.filterMap_nil]
  rw [if_neg (by rw [cos_q_a]; norm_num :
    ¬ (0.75 : ℝ) ≤ SearchService.cosineSimilarity [10, 0] [7, Real.sqrt 51])]
  rfl

theorem semanticSearch_eval_included :
    SemanticSearch.semanticSearch (fun _ => [10, 0])
      [{ id := "b.md", embedding := [8, 6] }]
      { files := [⟨"b.md", "b", 0, 0⟩],
        read := fun p => if p = "b.md" then some "hi" else none } "q" =
      [{ id := "b.md", score := SemanticSearch.cosineSimilarity [10, 0] [8, 6],
         content := "hi", fullContent := some "hi", linkedContexts := [] }] := by
  simp only [SemanticSearch.semanticSearch, List.filterMap_cons,
    List.filterMap_nil]
  rw [if_pos (by rw [cos_q_b]; norm_num :
    (0.80 : ℝ) ≤ SemanticSearch.cosineSimilarity [10, 0] [8, 6])]
  show ([{ id := "b.md",
           score := SemanticSearch.cosineSimilarity [10, 0] [8, 6],
           content := List.getD ["hi"]
             (SemanticSearch.idxOf
               (SemanticSearch.cosineSimilarity [10, 0] [10, 0])
               [SemanticSearch.cosineSimilarity [10, 0] [10, 0]]) "",
           fullContent := some "hi", linkedContexts := [] }] :
    List SemanticSearch.SearchResult) = _
  rw [idxOf_head]
  rfl

/-- C1: every result of `SearchService.performSemanticSearch` is a stored
document scoring at least `0.75` against the query embedding, the list is
sorted descending by document-level score and holds at most `5` entries;
every result of `semanticSearch` likewise scores at least `0.80`, is sorted
descending and is truncated to `topK` (default `3`).  The closed conjuncts
run the spec's scenario: a document at cosine `0.7` is excluded at the
`0.75` threshold, one at exactly `0.8` is included at the `0.80` threshold
(with score exactly `0.8`). -/
theorem c1_search_threshold_sorted_topk :
    (∀ (embed : String → List ℝ) (embeddings : List Embedding) (vault : Vault)
        (query : String) (r : SearchService.SearchResult),
      r ∈ SearchService.performSemanticSearch embed embeddings vault query →
        ∃ doc ∈ embeddings, r.id = doc.id ∧
          r.score = SearchService.cosineSimilarity (embed query) doc.embedding ∧
          (0.75 : ℝ) ≤ r.score) ∧
    (∀ (embed : String → List ℝ) (embeddings : List Embedding) (vault : Vault)
        (query : String),
      (SearchService.performSemanticSearch embed embeddings vault query).Pairwise
        (fun a b => b.score ≤ a.score)) ∧
    (∀ (embed : String → List ℝ) (embeddings : List Embedding) (vault : Vault)
        (query : String),
      (SearchService.performSemanticSearch embed embeddings vault query).length ≤ 5) ∧
    (∀ (embed : String → List ℝ) (embeddings : List Embedding) (vault : Vault)
        (query : String) (topK : ℕ) (r : SemanticSearch.SearchResult),
      r ∈ SemanticSearch.semanticSearch embed embeddings vault query topK →
        ∃ doc ∈ embeddings, r.id = doc.id ∧
          r.score = SemanticSearch.cosineSimilarity (embed query) doc.embedding ∧
          (0.80 : ℝ) ≤ r.score) ∧
    (∀ (embed : String → List ℝ) (embeddings : List Embedding) (vault : Vault)
        (query : String) (topK : ℕ),
      (SemanticSearch.semanticSearch embed embeddings vault query topK).Pairwise
        (fun a b => b.score ≤ a.score)) ∧
    (∀ (embed : String → List ℝ) (embeddings : List Embedding) (vault : Vault)
        (query : String) (topK : ℕ),
      (SemanticSearch.semanticSearch embed embeddings vault query topK).length
        ≤ topK) ∧
    SearchService.performSemanticSearch (fun _ => [10, 0])
      [{ id := "a.md", embedding := [7, Real.sqrt 51] }]
      { files := [⟨"a.md", "a", 0, 0⟩],
        read := fun p => if p = "a.md" then some "x" else none } "q" = [] ∧
    (SemanticSearch.semanticSearch (fun _ => [10, 0])
        [{ id := "b.md", embedding := [8, 6] }]
        { files := [⟨"b.md", "b", 0, 0⟩],
          read := fun p => if p = "b.md" then some "hi" else none } "q").map
      (fun r => (r.id, r.score)) =
      [("b.md", (0.8 : ℝ))] := by
  refine ⟨?_, ?_, ?_, ?_, ?_, ?_, performSemanticSearch_eval_excluded, ?_⟩
  · intro embed embeddings vault query r h
    exact performSemanticSearch_mem h
  · intro embed embeddings vault query
    simp only [SearchService.performSemanticSearch]
    exact take_sortByDesc_pairwise _ _ 5
  · intro embed embeddings vault query
    simp only [SearchService.performSemanticSearch]
    rw [List.length_take]
    exact min_le_left _ _
  · intro embed embeddings vault query topK r h
    exact semanticSearch_mem h
  · intro embed embeddings vault query topK
    simp only [SemanticSearch.semanticSearch]
    exact take_sortByDesc_pairwise _ _ topK
  · intro embed embeddings vault query topK
    simp only [SemanticSearch.semanticSearch]
    rw [List.length_take]
    exact min_le_left _ _
  · rw [semanticSearch_eval_included, List.map_cons, List.map_nil, cos_q_b]

theorem processLinkedFile_fields {vault : Vault} {file : TFile} {parentScore : ℝ}
    {ctx : SearchService.LinkedContext}
    (h : SearchService.processLinkedFile vault file parentScore = some ctx) :
    ctx.relevance = parentScore * 0.8 ∧ ctx.linkDistance = 1 := by
  rcases Option.map_eq_some'.mp h with ⟨content, -, hc⟩
  rw [← hc]
  exact ⟨rfl, rfl⟩

theorem traverseStep_preserves {vault : Vault} {parentScore : ℝ}
    (st : List String × List SearchService.LinkedContext) (file : TFile)
    (h : ∀ c ∈ st.2, c.relevance = parentScore * 0.8 ∧ c.linkDistance = 1) :
    ∀ c ∈ (SearchService.traverseStep vault parentScore st file).2,
      c.relevance = parentScore * 0.8 ∧ c.linkDistance = 1 := by
  intro c hc
  unfold SearchService.traverseStep at hc
  split_ifs at hc with hmem
  · exact h c hc
  · split at hc
    · rename_i ctx hctx
      rcases List.mem_append.mp hc with hc' | hc'
      · exact h c hc'
      · rw [List.mem_singleton.mp hc']
        exact processLinkedFile_fields hctx
    · exact h c hc

theorem foldl_preserves_ctx {α : Type*}
    (f : List String × List SearchService.LinkedContext → α →
      List String × List SearchService.LinkedContext)
    (P : SearchService.LinkedContext → Prop)
    (hf : ∀ st x, (∀ c ∈ st.2, P c) → ∀ c ∈ (f st x).2, P c) :
    ∀ (l : List α) (st : List String × List SearchService.LinkedContext),
      (∀ c ∈ st.2, P c) → ∀ c ∈ (l.foldl f st).2, P c := by
  intro l
  induction l with
  | nil => intro st h; exact h
  | cons g gs ih =>
    intro st h
    rw [List.foldl_cons]
    exact ih (f st g) (hf st g h)

theorem traverseLinks_fields {vault : Vault} {cache : String → Option FileCache}
    {result : SearchService.SearchResult} :
    ∀ lc ∈ SearchService.traverseLinks vault cache result,
      lc.relevance = result.score * 0.8 ∧ lc.linkDistance = 1 := by
  intro lc hlc
  unfold SearchService.traverseLinks at hlc
  cases hfb : vault.fileByPath result.id with
  | none => rw [hfb] at hlc; simp at hlc
  | some file =>
    rw [hfb] at hlc
    dsimp only at hlc
    cases hfc : cache file.path with
    | none => rw [hfc] at hlc; simp at hlc
    | some fileCache =>
      rw [hfc] at hlc
      dsimp only at hlc
      set P := fun c : SearchService.LinkedContext =>
        c.relevance = result.score * 0.8 ∧ c.linkDistance = 1 with hP
      have hfwd := foldl_preserves_ctx
        (fun st link =>
          match vault.fileByPath link with
          | some linkedFile =>
            SearchService.traverseStep vault result.score st linkedFile
          | none => st) P
        (by
          intro st g hst
          dsimp only
          split
          · exact traverseStep_preserves st _ hst
          · exact hst)
        fileCache.links ([], []) (by intro c hc; simp at hc)
      have hback := foldl_preserves_ctx
        (fun st potentialSource =>
          match cache potentialSource.path with
          | some sourceCache =>
            if sourceCache.links.any
                (fun l => l = file.path || l = file.basename) then
              SearchService.traverseStep vault result.score st potentialSource
            else st
          | none => st) P
        (by
          intro st g hst
          dsimp only
          split
          · split_ifs with hl
            · exact traverseStep_preserves st _ hst
            · exact hst
          · exact hst)
        vault.files _ hfwd
      exact hback lc hlc

theorem performSemanticSearch_linkedContexts {embed : String → List ℝ}
    {embeddings : List Embedding} {vault : Vault} {query : String}
    {r : SearchService.SearchResult}
    (h : r ∈ SearchService.performSemanticSearch embed embeddings vault query) :
    r.linkedContexts = [] := by
  simp only [SearchService.performSemanticSearch] at h
  have h2 := mem_sortByDesc.mp (List.mem_of_mem_take h)
  obtain ⟨doc, hdoc, hf⟩ := List.mem_filterMap.mp h2
  split_ifs at hf with hth
  split at hf
  · rename_i content hcontent
    have hr := Option.some.inj hf
    subst hr
    rfl
  · simp at hf

/-- C6 (amended): linked contexts attached by `SearchService` (via
`traverseLinks` / `processLinkedFile`) always carry
`relevance = parent score × 0.8 ≤ parent score` and `linkDistance = 1`;
linked contexts produced by the old module's `getRelevantLinkedContext`
instead carry the linked note's best chunk similarity (at least the `0.75`
threshold) as `relevance`, which is not capped by the parent's score — and
its `LinkedContext` type has no `linkDistance` field at all. -/
theorem c6_linked_context_decay :
    (∀ (vault : Vault) (cache : String → Option FileCache)
        (result : SearchService.SearchResult),
      ∀ lc ∈ SearchService.traverseLinks vault cache result,
        lc.relevance = result.score * 0.8 ∧ lc.linkDistance = 1) ∧
    (∀ (embed : String → List ℝ) (embeddings : List Embedding) (vault : Vault)
        (cache : String → Option FileCache) (query : String)
        (r : SearchService.SearchResult) (lc : SearchService.LinkedContext),
      r ∈ SearchService.search embed embeddings vault cache query →
      lc ∈ r.linkedContexts →
        lc.relevance = r.score * 0.8 ∧ lc.linkDistance = 1 ∧
          lc.relevance ≤ r.score) ∧
    (∀ (queryEmbedding : List ℝ) (linkedFile : TFile) (vault : Vault)
        (embed : String → List ℝ) (threshold : ℝ)
        (lc : SemanticSearch.LinkedContext),
      SemanticSearch.getRelevantLinkedContext queryEmbedding linkedFile vault
          embed threshold = some lc →
        threshold ≤ lc.relevance) ∧
    SearchService.processLinkedFile
      { files := [⟨"b.md", "b", 0, 0⟩],
        read := fun p => if p = "b.md" then some "hi" else none }
      ⟨"b.md", "b", 0, 0⟩ 0.9 =
      some { notePath := "b.md", relevance := 0.9 * 0.8, context := "hi",
             linkDistance := 1 } := by
  refine ⟨?_, ?_, ?_, rfl⟩
  · intro vault cache result
    exact traverseLinks_fields
  · intro embed embeddings vault cache query r lc hr hlc
    simp only [SearchService.search] at hr
    have h2 := mem_sortByDesc.mp hr
    obtain ⟨ra, hra, hattach⟩ := List.mem_map.mp h2
    obtain ⟨r0, hr0, hanno⟩ := List.mem_map.mp hra
    have hannoLC : ra.linkedContexts = r0.linkedContexts := by
      rw [← hanno]
      split
      · split_ifs
        · rfl
        · rfl
      · rfl
    have hannoScore : ra.score = r0.score := by
      rw [← hanno]
      split
      · split_ifs
        · rfl
        · rfl
      · rfl
    have hr0lc := performSemanticSearch_linkedContexts hr0
    obtain ⟨doc, hdoc, hid, hsc, hr0score⟩ := performSemanticSearch_mem hr0
    subst hattach
    try dsimp only at hlc ⊢
    by_cases hemp : (SearchService.traverseLinks vault cache ra).isEmpty = true
    · rw [if_pos hemp] at hlc
      rw [hannoLC, hr0lc] at hlc
      simp at hlc
    · rw [if_neg hemp] at hlc
      have hfields := traverseLinks_fields lc hlc
      have hscore : ({ ra with
          linkedContexts := SearchService.traverseLinks vault cache ra
            : SearchService.SearchResult }).score = ra.score := rfl
      rw [if_neg hemp, hscore]
      refine ⟨hfields.1.trans (by rw [hannoScore]), hfields.2, ?_⟩
      rw [hfields.1]
      have hras : (0.75 : ℝ) ≤ ra.score := by rw [hannoScore]; exact hr0score
      nlinarith [hras]
  · intro queryEmbedding linkedFile vault embed threshold lc h
    unfold SemanticSearch.getRelevantLinkedContext at h
    split at h
    · simp at h
    · dsimp only at h
      split at h
      · simp at h
      · rename_i best hbest
        split_ifs at h with hth
        have hl := Option.some.inj h
        rw [← hl]
        exact hth

theorem grlc_eval :
    SemanticSearch.getRelevantLinkedContext [10, 0] ⟨"c.md", "c", 0, 0⟩
      { files := [⟨"b.md", "b", 0, 0⟩, ⟨"c.md", "c", 0, 0⟩],
        read := fun p => if p = "b.md" then some "see [[c.md]]"
          else if p = "c.md" then some "hello" else none }
      (fun _ => [10, 0]) 0.75 =
    some { notePath := "c.md",
           relevance := SemanticSearch.cosineSimilarity [10, 0] [10, 0],
           context := "hello" } := by
  show (if (0.75 : ℝ) ≤ SemanticSearch.cosineSimilarity [10, 0] [10, 0] then
      some ({ notePath := "c.md",
              relevance := SemanticSearch.cosineSimilarity [10, 0] [10, 0],
              context := List.getD ["hello"]
                (SemanticSearch.idxOf
                  (SemanticSearch.cosineSimilarity [10, 0] [10, 0])
                  [SemanticSearch.cosineSimilarity [10, 0] [10, 0]]) "" } :
        SemanticSearch.LinkedContext)
    else none) = _
  rw [if_pos (by rw [cos_q_q]; norm_num :
    (0.75 : ℝ) ≤ SemanticSearch.cosineSimilarity [10, 0] [10, 0])]
  rw [idxOf_head]
  rfl

/-- C6 counterexample: running the old module's `semanticSearch` on a note
`b.md` (document-level score exactly `0.8`) that links to `c.md` whose best
chunk scores `1` against the query yields a linked context with
`relevance = 1 > 0.8`, the parent's score — the claimed invariant
`relevance ≤ parent score` (and `linkDistance = 1`, a field this
`LinkedContext` does not even carry) is false. -/
theorem c6_counterexample_undecayed_relevance :
    SemanticSearch.semanticSearch (fun _ => [10, 0])
      [{ id := "b.md", embedding := [8, 6] }]
      { files := [⟨"b.md", "b", 0, 0⟩, ⟨"c.md", "c", 0, 0⟩],
        read := fun p => if p = "b.md" then some "see [[c.md]]"
          else if p = "c.md" then some "hello" else none } "q" =
      [{ id := "b.md", score := 0.8, content := "see [[c md]]",
         fullContent := some "see [[c.md]]",
         linkedContexts := [{ notePath := "c.md", relevance := 1,
                              context := "hello" }] }] ∧
    (0.8 : ℝ) < 1 := by
  constructor
  · simp only [SemanticSearch.semanticSearch, List.filterMap_cons,
      List.filterMap_nil]
    rw [if_pos (by rw [cos_q_b]; norm_num :
      (0.80 : ℝ) ≤ SemanticSearch.cosineSimilarity [10, 0] [8, 6])]
    show ([{ id := "b.md",
             score := SemanticSearch.cosineSimilarity [10, 0] [8, 6],
             content := List.getD ["see [[c md]]"]
               (SemanticSearch.idxOf
                 (SemanticSearch.cosineSimilarity [10, 0] [10, 0])
                 [SemanticSearch.cosineSimilarity [10, 0] [10, 0]]) "",
             fullContent := some "see [[c.md]]",
             linkedContexts := List.take 3 (sortByDesc
               (fun lc => lc.relevance)
               (List.filterMap
                 (fun lf => SemanticSearch.getRelevantLinkedContext [10, 0] lf
                   { files := [⟨"b.md", "b", 0, 0⟩, ⟨"c.md", "c", 0, 0⟩],
                     read := fun p => if p = "b.md" then some "see [[c.md]]"
                       else if p = "c.md" then some "hello" else none }
                   (fun _ => [10, 0]) 0.75)
                 [⟨"c.md", "c", 0, 0⟩])) }] :
      List SemanticSearch.SearchResult) = _
    rw [idxOf_head]
    simp only [List.filterMap_cons, List.filterMap_nil]
    rw [grlc_eval, cos_q_b, cos_q_q]
    rfl
  · norm_num

/-! ### The insertion-ordered map underlying `mergeAndRankResults` -/

theorem find_replace_self (m : List DateAware.SearchResult)
    (r : DateAware.SearchResult) :
    m.any (fun x => x.id == r.id) = true →
    (m.map fun x => if x.id == r.id then r else x).find?
      (fun x => x.id == r.id) = some r := by
  induction m with
  | nil => intro h; simp at h
  | cons y ys ih =>
    intro hany
    rw [List.map_cons]
    by_cases hy : (y.id == r.id) = true
    · rw [if_pos hy]
      exact List.find?_cons_of_pos _ (by simp)
    · rw [if_neg hy, List.find?_cons_of_neg _ (by exact hy)]
      apply ih
      obtain ⟨x, hx, hb⟩ := List.any_eq_true.mp hany
      rcases List.mem_cons.mp hx with rfl | hx'
      · exact absurd hb hy
      · exact List.any_eq_true.mpr ⟨x, hx', hb⟩

theorem find_replace_other (m : List DateAware.SearchResult)
    (r : DateAware.SearchResult) (i : String) (hne : i ≠ r.id) :
    (m.map fun x => if x.id == r.id then r else x).find?
      (fun x => x.id == i) = m.find? (fun x => x.id == i) := by
  induction m with
  | nil => rfl
  | cons y ys ih =>
    rw [List.map_cons]
    by_cases hy : (y.id == r.id) = true
    · have hyr : y.id = r.id := by simpa using hy
      rw [if_pos hy,
        List.find?_cons_of_neg _ (by simp [Ne.symm hne]),
        List.find?_cons_of_neg _ (by simp [hyr, Ne.symm hne]), ih]
    · rw [if_neg hy]
      by_cases hyi : (y.id == i) = true
      · rw [List.find?_cons_of_pos _ (by exact hyi),
          List.find?_cons_of_pos _ (by exact hyi)]
      · rw [List.find?_cons_of_neg _ (by exact hyi),
          List.find?_cons_of_neg _ (by exact hyi), ih]

theorem find_append_self (m : List DateAware.SearchResult)
    (r : DateAware.SearchResult) :
    (∀ x ∈ m, ¬ ((x.id == r.id) = true)) →
    (m ++ [r]).find? (fun x => x.id == r.id) = some r := by
  induction m with
  | nil =>
    intro _
    exact List.find?_cons_of_pos _ (by simp)
  | cons y ys ih =>
    intro hall
    rw [List.cons_append,
      List.find?_cons_of_neg _ (by exact hall y (List.mem_cons_self y ys))]
    exact ih fun x hx => hall x (List.mem_cons_of_mem y hx)

theorem find_append_other (m : List DateAware.SearchResult)
    (r : DateAware.SearchResult) (i : String) (hne : i ≠ r.id) :
    (m ++ [r]).find? (fun x => x.id == i) = m.find? (fun x => x.id == i) := by
  induction m with
  | nil =>
    rw [List.nil_append, List.find?_cons_of_neg _ (by simp [Ne.symm hne])]
  | cons y ys ih =>
    by_cases hy : (y.id == i) = true
    · rw [List.cons_append, List.find?_cons_of_pos _ (by exact hy),
        List.find?_cons_of_pos _ (by exact hy)]
    · rw [List.cons_append, List.find?_cons_of_neg _ (by exact hy),
        List.find?_cons_of_neg _ (by exact hy), ih]

theorem mapFind_mapSet_self (m : List DateAware.SearchResult)
    (r : DateAware.SearchResult) :
    DateAware.mapFind (DateAware.mapSet m r) r.id = some r := by
  unfold DateAware.mapSet DateAware.mapFind
  by_cases hany : m.any (fun x => x.id == r.id) = true
  · rw [if_pos hany]
    exact find_replace_self m r hany
  · rw [if_neg hany]
    exact find_append_self m r fun x hx hb =>
      hany (List.any_eq_true.mpr ⟨x, hx, hb⟩)

theorem mapFind_mapSet_other (m : List DateAware.SearchResult)
    (r : DateAware.SearchResult) (i : String) (hne : i ≠ r.id) :
    DateAware.mapFind (DateAware.mapSet m r) i = DateAware.mapFind m i := by
  unfold DateAware.mapSet DateAware.mapFind
  by_cases hany : m.any (fun x => x.id == r.id) = true
  · rw [if_pos hany]
    exact find_replace_other m r i hne
  · rw [if_neg hany]
    exact find_append_other m r i hne

theorem ids_map_replace (m : List DateAware.SearchResult)
    (r : DateAware.SearchResult) :
    ((m.map fun x => if x.id == r.id then r else x).map fun x => x.id) =
      m.map fun x => x.id := by
  induction m with
  | nil => rfl
  | cons y ys ih =>
    by_cases hy : (y.id == r.id) = true
    · have hyr : y.id = r.id := by simpa using hy
      simp only [List.map_cons, if_pos hy, ih]
      rw [hyr]
    · simp only [List.map_cons, if_neg hy, ih]

theorem nodup_ids_mapSet (m : List DateAware.SearchResult)
    (r : DateAware.SearchResult) (h : (m.map fun x => x.id).Nodup) :
    ((DateAware.mapSet m r).map fun x => x.id).Nodup := by
  unfold DateAware.mapSet
  by_cases hany : m.any (fun x => x.id == r.id) = true
  · rw [if_pos hany, ids_map_replace]
    exact h
  · rw [if_neg hany, List.map_append]
    refine List.nodup_append.mpr ⟨h, List.nodup_singleton _, ?_⟩
    intro a ha hb
    simp only [List.map_cons, List.map_nil, List.mem_singleton] at hb
    subst hb
    obtain ⟨x, hx, hxi⟩ := List.mem_map.mp ha
    exact hany (List.any_eq_true.mpr ⟨x, hx, by simp [hxi]⟩)

theorem mapFind_id (m : List DateAware.SearchResult) (i : String)
    (r : DateAware.SearchResult) (h : DateAware.mapFind m i = some r) :
    r.id = i := by
  unfold DateAware.mapFind at h
  simpa using List.find?_some h

theorem mapFind_mem (m : List DateAware.SearchResult) (i : String)
    (r : DateAware.SearchResult) (h : DateAware.mapFind m i = some r) :
    r ∈ m := by
  unfold DateAware.mapFind at h
  exact List.mem_of_find?_eq_some h

theorem mapFind_self_of_nodup (m : List DateAware.SearchResult) :
    ∀ rs : DateAware.SearchResult, (m.map fun x => x.id).Nodup → rs ∈ m →
    DateAware.mapFind m rs.id = some rs := by
  induction m with
  | nil => intro rs _ h; exact absurd h (List.not_mem_nil rs)
  | cons y ys ih =>
    intro rs hnd hmem
    rw [List.map_cons] at hnd
    unfold DateAware.mapFind
    rcases List.mem_cons.mp hmem with rfl | hmem'
    · exact List.find?_cons_of_pos _ (by simp)
    · have hne : ¬ ((y.id == rs.id) = true) := by
        intro hb
        have hyr : y.id = rs.id := by simpa using hb
        exact (List.nodup_cons.mp hnd).1
          (by rw [hyr]; exact List.mem_map.mpr ⟨rs, hmem', rfl⟩)
      rw [List.find?_cons_of_neg _ (by exact hne)]
      exact ih rs (List.nodup_cons.mp hnd).2 hmem'

theorem mergeStep_find_self (m : List DateAware.SearchResult)
    (rd : DateAware.SearchResult) :
    DateAware.mapFind (DateAware.mergeStep m rd) rd.id =
      some (match DateAware.mapFind m rd.id with
            | some e =>
              { e with
                score := max e.score rd.score * (1.2 : ℚ),
                dateRelevance := rd.dateRelevance }
            | none => rd) := by
  unfold DateAware.mergeStep
  cases hf : DateAware.mapFind m rd.id with
  | none => exact mapFind_mapSet_self m rd
  | some e =>
    have hid : e.id = rd.id := mapFind_id m rd.id e hf
    rw [← hid]
    exact mapFind_mapSet_self m _

theorem mergeStep_find_other (m : List DateAware.SearchResult)
    (rd : DateAware.SearchResult) (i : String) (hne : i ≠ rd.id) :
    DateAware.mapFind (DateAware.mergeStep m rd) i = DateAware.mapFind m i := by
  unfold DateAware.mergeStep
  cases hf : DateAware.mapFind m rd.id with
  | none => exact mapFind_mapSet_other m rd i hne
  | some e =>
    have hid : e.id = rd.id := mapFind_id m rd.id e hf
    exact mapFind_mapSet_other m _ i (by show i ≠ e.id; rw [hid]; exact hne)

theorem mergeStep_nodup (m : List DateAware.SearchResult)
    (rd : DateAware.SearchResult) (h : (m.map fun x => x.id).Nodup) :
    ((DateAware.mergeStep m rd).map fun x => x.id).Nodup := by
  unfold DateAware.mergeStep
  cases DateAware.mapFind m rd.id with
  | none => exact nodup_ids_mapSet m rd h
  | some e => exact nodup_ids_mapSet m _ h

theorem foldl_mergeStep_find_untouched (dres : List DateAware.SearchResult) :
    ∀ (m : List DateAware.SearchResult) (i : String),
    (∀ d ∈ dres, d.id ≠ i) →
    DateAware.mapFind (dres.foldl DateAware.mergeStep m) i =
      DateAware.mapFind m i := by
  induction dres with
  | nil => intro m i _; rfl
  | cons d ds ih =>
    intro m i hall
    rw [List.foldl_cons,
      ih (DateAware.mergeStep m d) i
        (fun x hx => hall x (List.mem_cons_of_mem d hx)),
      mergeStep_find_other m d i (hall d (List.mem_cons_self d ds)).symm]

theorem foldl_mergeStep_find (dres : List DateAware.SearchResult) :
    ∀ (m : List DateAware.SearchResult) (rd : DateAware.SearchResult),
    (dres.map fun x => x.id).Nodup → rd ∈ dres →
    DateAware.mapFind (dres.foldl DateAware.mergeStep m) rd.id =
      some (match DateAware.mapFind m rd.id with
            | some e =>
              { e with
                score := max e.score rd.score * (1.2 : ℚ),
                dateRelevance := rd.dateRelevance }
            | none => rd) := by
  induction dres with
  | nil => intro m rd _ h; exact absurd h (List.not_mem_nil rd)
  | cons d ds ih =>
    intro m rd hnd hmem
    rw [List.map_cons] at hnd
    rw [List.foldl_cons]
    rcases List.mem_cons.mp hmem with heq | hmem'
    · rw [heq]
      have hds : ∀ x ∈ ds, x.id ≠ d.id := by
        intro x hx h
        exact (List.nodup_cons.mp hnd).1
          (by rw [← h]; exact List.mem_map.mpr ⟨x, hx, rfl⟩)
      rw [foldl_mergeStep_find_untouched ds (DateAware.mergeStep m d) d.id hds]
      exact mergeStep_find_self m d
    · have hne : rd.id ≠ d.id := by
        intro h
        exact (List.nodup_cons.mp hnd).1
          (by rw [← h]; exact List.mem_map.mpr ⟨rd, hmem', rfl⟩)
      rw [ih (DateAware.mergeStep m d) rd (List.nodup_cons.mp hnd).2 hmem',
        mergeStep_find_other m d rd.id hne]

theorem foldl_mergeStep_nodup (dres : List DateAware.SearchResult) :
    ∀ m : List DateAware.SearchResult, (m.map fun x => x.id).Nodup →
    ((dres.foldl DateAware.mergeStep m).map fun x => x.id).Nodup := by
  induction dres with
  | nil => intro m h; exact h
  | cons d ds ih =>
    intro m h
    rw [List.foldl_cons]
    exact ih (DateAware.mergeStep m d) (mergeStep_nodup m d h)

theorem foldl_mapSet_seed (sem : List DateAware.SearchResult) :
    ∀ acc : List DateAware.SearchResult,
    ((acc ++ sem).map fun x => x.id).Nodup →
    sem.foldl (fun m result => DateAware.mapSet m result) acc = acc ++ sem := by
  induction sem with
  | nil => intro acc _; rw [List.foldl_nil, List.append_nil]
  | cons s ss ih =>
    intro acc hnd
    rw [List.foldl_cons]
    rw [List.map_append, List.map_cons] at hnd
    have hnotany : ¬ acc.any (fun x => x.id == s.id) = true := by
      intro h
      obtain ⟨x, hx, hb⟩ := List.any_eq_true.mp h
      exact (List.nodup_append.mp hnd).2.2
        (List.mem_map.mpr ⟨x, hx, by simpa using hb⟩) (List.mem_cons_self _ _)
    have hset : DateAware.mapSet acc s = acc ++ [s] := by
      unfold DateAware.mapSet
      rw [if_neg hnotany]
    rw [hset, ih (acc ++ [s])
        (by rw [List.append_assoc, List.singleton_append, List.map_append,
          List.map_cons]; exact hnd),
      List.append_assoc, List.singleton_append]

/-- C3: the date-aware merge is per document id.  First conjunct: every
`addDateAwareResults` entry is provisional, with `score = 1.0` and
`dateRelevance = { matchType: 'creation', date: metadata.createdAt }` taken
from the stored record of its id.  Second conjunct, for result lists with
unique ids: a document in both the semantic and the date-filtered set
appears in `mergeAndRankResults` with score
`max(semantic score, date score) * 1.2` and the date relevance attached; a
document only in the date-filtered set is inserted unchanged; and the
merged list is sorted descending by score.  Third conjunct: a concrete run
with one overlapping id (`max (9/10) 1 * 1.2 = 6/5`) and one new id. -/
theorem c3_merge_per_id_boost_sorted :
    (∀ (files : List TFile) (store : String → Option DateIndex.DateMetadata)
        (read : String → Option String) (r : DateAware.SearchResult),
      r ∈ DateAware.addDateAwareResults files store read →
      r.score = 1 ∧ ∃ md, store r.id = some md ∧
        r.dateRelevance = some { matchType := .creation,
                                 date := md.createdAt }) ∧
    (∀ (sem dres : List DateAware.SearchResult),
      (sem.map fun x => x.id).Nodup → (dres.map fun x => x.id).Nodup →
      ((∀ rs ∈ sem, ∀ rd ∈ dres, rs.id = rd.id →
        ∃ r ∈ DateAware.mergeAndRankResults sem dres,
          r.id = rs.id ∧ r.score = max rs.score rd.score * (1.2 : ℚ) ∧
          r.dateRelevance = rd.dateRelevance) ∧
      (∀ rd ∈ dres, (∀ rs ∈ sem, rs.id ≠ rd.id) →
        rd ∈ DateAware.mergeAndRankResults sem dres) ∧
      (DateAware.mergeAndRankResults sem dres).Pairwise
        (fun a b => b.score ≤ a.score))) ∧
    DateAware.mergeAndRankResults
      [{ id := "x.md", score := 9/10, content := "sx" }]
      [{ id := "x.md", score := 1, content := "cx",
         dateRelevance := some { matchType := .creation, date := 5 } },
       { id := "y.md", score := 1, content := "cy",
         dateRelevance := some { matchType := .creation, date := 7 } }] =
      [{ id := "x.md", score := 6/5, content := "sx",
         dateRelevance := some { matchType := .creation, date := 5 } },
       { id := "y.md", score := 1, content := "cy",
         dateRelevance := some { matchType := .creation, date := 7 } }] := by
  refine ⟨?_, ?_, ?_⟩
  · intro files store read r hr
    simp only [DateAware.addDateAwareResults, List.mem_filterMap] at hr
    obtain ⟨file, hfile, hsome⟩ := hr
    cases hstore : store file.path with
    | none => rw [hstore] at hsome; simp at hsome
    | some md =>
      rw [hstore] at hsome
      cases hread : read file.path with
      | none => rw [hread] at hsome; simp at hsome
      | some content =>
        rw [hread] at hsome
        simp only [Option.some.injEq] at hsome
        subst hsome
        exact ⟨rfl, md, hstore, rfl⟩
  · intro sem dres hsem hdres
    have hm0 : sem.foldl (fun m result => DateAware.mapSet m result) [] =
        sem := by
      have h := foldl_mapSet_seed sem []
        (by rw [List.nil_append]; exact hsem)
      rw [List.nil_append] at h
      exact h
    have hmerge : DateAware.mergeAndRankResults sem dres =
        sortByDesc (fun r => r.score)
          (dres.foldl DateAware.mergeStep sem) := by
      unfold DateAware.mergeAndRankResults
      rw [hm0]
    refine ⟨?_, ?_, ?_⟩
    · intro rs hrs rd hrd hid
      have hsemfind : DateAware.mapFind sem rd.id = some rs := by
        rw [← hid]
        exact mapFind_self_of_nodup sem rs hsem hrs
      have hfind : DateAware.mapFind (dres.foldl DateAware.mergeStep sem)
          rd.id =
          some { rs with
                 score := max rs.score rd.score * (1.2 : ℚ),
                 dateRelevance := rd.dateRelevance } := by
        rw [foldl_mergeStep_find dres sem rd hdres hrd, hsemfind]
      refine ⟨{ rs with
                score := max rs.score rd.score * (1.2 : ℚ),
                dateRelevance := rd.dateRelevance }, ?_, rfl, rfl, rfl⟩
      rw [hmerge]
      exact mem_sortByDesc.mpr (mapFind_mem _ _ _ hfind)
    · intro rd hrd hnone
      have hsemfind : DateAware.mapFind sem rd.id = none := by
        unfold DateAware.mapFind
        exact List.find?_eq_none.mpr fun x hx hb =>
          hnone x hx (by simpa using hb)
      have hfind : DateAware.mapFind (dres.foldl DateAware.mergeStep sem)
          rd.id = some rd := by
        rw [foldl_mergeStep_find dres sem rd hdres hrd, hsemfind]
      rw [hmerge]
      exact mem_sortByDesc.mpr (mapFind_mem _ _ _ hfind)
    · rw [hmerge]
      exact sortByDesc_pairwise _ _
  · norm_num [DateAware.mergeAndRankResults, DateAware.mergeStep,
      DateAware.mapFind, DateAware.mapSet, sortByDesc, insertByDesc,
      List.find?, max_def, (by decide : ("x.md" == "y.md") = false),
      (by decide : ¬ ("x.md" = "y.md"))]
